import Mathlib

/-!
Verification of the `gj` JSON tokenizer and parser.

The Go sources are embedded shallowly:
* `Token` and `Item` mirror `token.Token` and `lexer.Item`.
* The lexer state functions (`lexToken`, `lexQuote`, `lexNumber`, `lexNull`,
  `lexBool`, `scanNumber`) are translated one-to-one; the scan position is a
  byte offset (runes advance it by their UTF-8 size, as `Lexer.next` does).
  Go's `next`/`backup` pairs are rendered by pattern matching on the unread
  suffix without consuming, which is observationally the same.  The state
  machine is driven by a fuel parameter: `none` means the run did not finish
  within the given fuel (for a diverging scan, no fuel suffices).
* The parser (`Parse`, `parseValue`, `parseObject`, `parseProperty`,
  `parseArray`, `parseArrayItem`, `parseLiteral`, `parseString`) is translated
  with the token channel replaced by the precomputed token list; reading past
  the final item yields the zero `Item`, exactly as receiving from the closed
  channel does.  Loops become fueled recursion with the loop state as
  arguments.
* `strconv.Unquote`, `strconv.ParseInt` and `strconv.ParseFloat` are modelled
  by `goUnquote`, `goParseInt` and `goParseFloat`.  Floating-point results are
  represented by the exact decimal rational; binary64 rounding is abstracted
  away (no claim below depends on rounding), while the overflow range error of
  `ParseFloat` — its only range error on decimal input, decimal underflow
  returning `0` with a nil error — is modelled exactly at its half-ULP
  boundary.
-/

set_option maxRecDepth 4000
set_option exponentiation.threshold 2000

namespace GJ

/-- `token.Token` from the `token` package. -/
inductive Token where
  | unknown
  | leftBrace
  | rightBrace
  | leftBracket
  | rightBracket
  | string
  | number
  | true
  | false
  | null
  | comma
  | colon
  | eof
  | error
deriving DecidableEq, Repr

/-- `lexer.Item`: a token with its starting byte offset and verbatim text. -/
structure Item where
  token : Token
  pos : Nat
  val : String
deriving DecidableEq, Repr

/-- The zero value of `Item`: what `NextItem` returns once the channel is closed. -/
def zeroItem : Item := ⟨.unknown, 0, ""⟩

/-- Lexer state: the unread suffix of the input, the byte offsets `start` and
`pos`, and the characters of `input[start:pos]` (the pending token text). -/
structure Lexer where
  rest : List Char
  start : Nat
  pos : Nat
  acc : List Char
deriving Repr

/-- Total UTF-8 byte size of a run of characters. -/
def utf8Len : List Char → Nat
  | [] => 0
  | c :: r => c.utf8Size + utf8Len r

/-- `Lexer.next` on a known head character: consume it and advance `pos` by its
UTF-8 width. -/
def Lexer.advance (l : Lexer) (c : Char) (r : List Char) : Lexer :=
  { l with rest := r, pos := l.pos + c.utf8Size, acc := l.acc ++ [c] }

/-- Consume a whole run of characters. -/
def Lexer.advanceMany (l : Lexer) (cs r : List Char) : Lexer :=
  { l with rest := r, pos := l.pos + utf8Len cs, acc := l.acc ++ cs }

/-- `Lexer.ignore`: drop the pending text. -/
def Lexer.ignore (l : Lexer) : Lexer :=
  { l with start := l.pos, acc := [] }

/-- `Lexer.emit`: build the `Item` for the pending text and reset `start`. -/
def Lexer.emitItem (l : Lexer) (t : Token) : Item × Lexer :=
  (⟨t, l.start, String.mk l.acc⟩, { l with start := l.pos, acc := [] })

/-- `Lexer.errorf`: the Error item carries `start` and the message text. -/
def errorfItem (l : Lexer) (msg : String) : Item :=
  ⟨.error, l.start, msg⟩

/-- `isSpace` from the lexer. -/
def isSpace (c : Char) : Bool :=
  c = ' ' || c = '\t' || c = '\r' || c = '\n'

/-- `isNumber` from the lexer: a sign or a decimal digit. -/
def isNumber (c : Char) : Bool :=
  c = '+' || c = '-' || ('0' ≤ c && c ≤ '9')

/-- `isAlphaNumeric` from the lexer: underscore, letter, or digit.  The Go
version consults the full Unicode tables; only the ASCII classes can follow a
numeric run in any input exercised below, so ASCII classes are used. -/
def isAlphaNumeric (c : Char) : Bool :=
  c = '_' || c.isAlpha || c.isDigit

/-- Split off the longest run of characters satisfying `p` (Go `acceptRun`). -/
def span (p : Char → Bool) : List Char → List Char × List Char
  | [] => ([], [])
  | c :: r =>
    if p c then
      let (a, b) := span p r
      (c :: a, b)
    else ([], c :: r)

/-- `Lexer.acceptRun valid`. -/
def Lexer.acceptRun (l : Lexer) (valid : Char → Bool) : Lexer :=
  let (a, b) := span valid l.rest
  l.advanceMany a b

/-- `Lexer.accept valid`: consume the next character if it is in the set. -/
def Lexer.accept (l : Lexer) (valid : List Char) : Bool × Lexer :=
  match l.rest with
  | c :: r => if valid.contains c then (Bool.true, l.advance c r) else (Bool.false, l)
  | [] => (Bool.false, l)

/-- `scanNumber`: sign, digit-and-underscore run, optional fraction, optional
exponent; fails (consuming the offending rune) if an alphanumeric follows. -/
def Lexer.scanNumber (l : Lexer) : Bool × Lexer :=
  let l1 := (l.accept ['+', '-']).2
  let digits : Char → Bool := fun c => c.isDigit || c = '_'
  let l2 := l1.acceptRun digits
  let (hasDot, l3) := l2.accept ['.']
  let l4 := if hasDot then l3.acceptRun digits else l3
  let (hasExp, l5) := l4.accept ['e', 'E']
  let l6 := if hasExp then ((l5.accept ['+', '-']).2).acceptRun (fun c => c.isDigit) else l5
  match l6.rest with
  | c :: r => if isAlphaNumeric c then (Bool.false, l6.advance c r) else (Bool.true, l6)
  | [] => (Bool.true, l6)

def nullValue : List Char := ['n', 'u', 'l', 'l']

def boolTrueValue : List Char := ['t', 'r', 'u', 'e']

def boolFalseValue : List Char := ['f', 'a', 'l', 's', 'e']

def nullValueLen : Nat := 4

def boolTrueValueLen : Nat := 4

def boolFalseValueLen : Nat := 5

/-- Go %q of a scanned numeric run (plain ASCII, so just surrounding quotes). -/
def goQuote (s : String) : String := "\"" ++ s ++ "\""

mutual

/-- `lexToken`: the default scan state. -/
def lexToken (n : Nat) (l : Lexer) : Option (List Item) :=
  match n with
  | 0 => none
  | n + 1 =>
    match l.rest with
    | [] => some [(l.emitItem .eof).1]
    | c :: r =>
      if isSpace c then lexToken n ((l.advance c r).ignore)
      else if c = '{' then
        let (it, l2) := (l.advance c r).emitItem .leftBrace
        (lexToken n l2).map (it :: ·)
      else if c = '}' then
        let (it, l2) := (l.advance c r).emitItem .rightBrace
        (lexToken n l2).map (it :: ·)
      else if c = '[' then
        let (it, l2) := (l.advance c r).emitItem .leftBracket
        (lexToken n l2).map (it :: ·)
      else if c = ']' then
        let (it, l2) := (l.advance c r).emitItem .rightBracket
        (lexToken n l2).map (it :: ·)
      else if c = ':' then
        let (it, l2) := (l.advance c r).emitItem .colon
        (lexToken n l2).map (it :: ·)
      else if c = ',' then
        let (it, l2) := (l.advance c r).emitItem .comma
        (lexToken n l2).map (it :: ·)
      else if c = '"' then lexQuote n (l.advance c r)
      else if isNumber c then lexNumber n l
      else if c = 'n' then lexNull n l
      else if c = 't' || c = 'f' then lexBool n l
      else
        let (it, l2) := (l.advance c r).emitItem .unknown
        (lexToken n l2).map (it :: ·)

/-- `lexQuote`: inside a double-quoted string (the opening quote is pending). -/
def lexQuote (n : Nat) (l : Lexer) : Option (List Item) :=
  match n with
  | 0 => none
  | n + 1 =>
    match l.rest with
    | [] => some [errorfItem l "unterminated quoted string"]
    | c :: r =>
      if c = '\\' then
        match r with
        | [] => lexQuote n (l.advance c r)
        | c2 :: r2 => lexQuote n ((l.advance c r).advance c2 r2)
      else if c = '\n' then some [errorfItem l "unterminated quoted string"]
      else if c = '"' then
        let (it, l2) := (l.advance c r).emitItem .string
        (lexToken n l2).map (it :: ·)
      else lexQuote n (l.advance c r)

/-- `lexNumber`. -/
def lexNumber (n : Nat) (l : Lexer) : Option (List Item) :=
  match n with
  | 0 => none
  | n + 1 =>
    let (ok, l2) := l.scanNumber
    if ok then
      let (it, l3) := l2.emitItem .number
      (lexToken n l3).map (it :: ·)
    else some [errorfItem l2 ("bad number syntax: " ++ goQuote (String.mk l2.acc))]

/-- `lexNull`: on an exact `"null"` prefix emit the token, otherwise emit and
consume nothing. -/
def lexNull (n : Nat) (l : Lexer) : Option (List Item) :=
  match n with
  | 0 => none
  | n + 1 =>
    if nullValue.isPrefixOf l.rest then
      let l2 := l.advanceMany (l.rest.take nullValueLen) (l.rest.drop nullValueLen)
      let (it, l3) := l2.emitItem .null
      (lexToken n l3).map (it :: ·)
    else lexToken n l

/-- `lexBool`: exact `"true"` / `"false"` prefixes, otherwise a silent no-op. -/
def lexBool (n : Nat) (l : Lexer) : Option (List Item) :=
  match n with
  | 0 => none
  | n + 1 =>
    if boolTrueValue.isPrefixOf l.rest then
      let l2 := l.advanceMany (l.rest.take boolTrueValueLen) (l.rest.drop boolTrueValueLen)
      let (it, l3) := l2.emitItem .true
      (lexToken n l3).map (it :: ·)
    else if boolFalseValue.isPrefixOf l.rest then
      let l2 := l.advanceMany (l.rest.take boolFalseValueLen) (l.rest.drop boolFalseValueLen)
      let (it, l3) := l2.emitItem .false
      (lexToken n l3).map (it :: ·)
    else lexToken n l

end

/-- `Lex`: the initial lexer state for an input string. -/
def initLexer (s : String) : Lexer := ⟨s.toList, 0, 0, []⟩

/-- The full token stream of an input, with `fuel` bounding the scan steps:
`none` means the state machine did not finish within `fuel` steps. -/
def tokenize (fuel : Nat) (s : String) : Option (List Item) :=
  lexToken fuel (initLexer s)

/-- Hexadecimal digit value, if any. -/
def hexVal (c : Char) : Option Nat :=
  let v := c.toNat
  if 48 ≤ v && v ≤ 57 then some (v - 48)
  else if 97 ≤ v && v ≤ 102 then some (v - 87)
  else if 65 ≤ v && v ≤ 70 then some (v - 55)
  else none

/-- Octal digit value, if any. -/
def octVal (c : Char) : Option Nat :=
  if '0' ≤ c && c ≤ '7' then some (c.toNat - '0'.toNat) else none

/-- Fold a run of hex digits (used for `\x`, `\u`, `\U`). -/
def hexRun : List Char → Option Nat
  | [] => some 0
  | c :: r => do
    let v ← hexVal c
    let rest ← hexRun r
    pure (v * 16 ^ r.length + rest)

/-- The rune produced by a `\u`/`\U` escape: Go encodes surrogate halves (and
any out-of-range value, rejected earlier) as U+FFFD via `utf8.EncodeRune`.
`Char.ofNat` yields the character exactly on the valid scalar values. -/
def runeChar (v : Nat) : Char :=
  if v < 0xd800 ∨ 0xe000 ≤ v ∧ v < 0x110000 then Char.ofNat v
  else Char.ofNat 0xfffd

/-- One escape sequence after the backslash, as in `strconv.unquoteChar` for a
double-quoted string: returns the decoded character and the unread suffix.
`\x` escapes with value ≥ 0x80 produce a raw byte in Go; they are modelled as
the code point of that value (no claim exercises them). -/
def unquoteEsc : List Char → Option (Char × List Char)
  | 'a' :: r => some (Char.ofNat 7, r)
  | 'b' :: r => some (Char.ofNat 8, r)
  | 'f' :: r => some (Char.ofNat 12, r)
  | 'n' :: r => some ('\n', r)
  | 'r' :: r => some ('\r', r)
  | 't' :: r => some ('\t', r)
  | 'v' :: r => some (Char.ofNat 11, r)
  | '\\' :: r => some ('\\', r)
  | '"' :: r => some ('"', r)
  | 'x' :: a :: b :: r => do
    let v ← hexRun [a, b]
    pure (Char.ofNat v, r)
  | 'u' :: a :: b :: c :: d :: r => do
    let v ← hexRun [a, b, c, d]
    pure (runeChar v, r)
  | 'U' :: a :: b :: c :: d :: e :: f :: g :: h :: r => do
    let v ← hexRun [a, b, c, d, e, f, g, h]
    if v > 0x10ffff then none else pure (runeChar v, r)
  | c :: r => do
    let v1 ← octVal c
    match r with
    | c2 :: c3 :: r2 => do
      let v2 ← octVal c2
      let v3 ← octVal c3
      let v := v1 * 64 + v2 * 8 + v3
      if v > 255 then none else pure (Char.ofNat v, r2)
    | _ => none
  | [] => none

/-- The body of `strconv.Unquote` after the opening quote: decode characters
until the closing quote, which must end the string.  An unescaped newline or
a bad escape is a syntax error. -/
def unquoteBody (n : Nat) (cs : List Char) : Option (List Char) :=
  match n with
  | 0 => none
  | n + 1 =>
    match cs with
    | [] => none
    | c :: r =>
      if c = '"' then if r = [] then some [] else none
      else if c = '\n' then none
      else if c = '\\' then
        match unquoteEsc r with
        | none => none
        | some (ch, r2) =>
          match unquoteBody n r2 with
          | none => none
          | some tail => some (ch :: tail)
      else
        match unquoteBody n r with
        | none => none
        | some tail => some (c :: tail)

/-- `strconv.Unquote` restricted to double-quoted strings (the only form the
lexer can produce: every `String` item starts and ends with `"`). -/
def goUnquote (s : String) : Option String :=
  match s.toList with
  | '"' :: r => (unquoteBody (r.length + 1) r).map String.mk
  | _ => none

/-- Decimal value of a digit run. -/
def decNat : List Char → Nat
  | [] => 0
  | c :: r => (c.toNat - '0'.toNat) * 10 ^ r.length + decNat r

/-- The digit run of `ParseInt` after the sign: a nonempty run of plain
decimal digits (underscores are rejected when a base is given), with the
signed 64-bit range check. -/
def goParseIntCore (neg : Bool) (ds : List Char) : Option Int :=
  if ds = [] then none
  else if ds.all (·.isDigit) then
    let v : Int := if neg then -(decNat ds : Int) else (decNat ds : Int)
    if -(2 ^ 63) ≤ v ∧ v ≤ 2 ^ 63 - 1 then some v else none
  else none

/-- `strconv.ParseInt(s, 10, 64)`: optional sign, then the digit run.  Go
returns a clamped value together with `ErrRange`; the caller only tests the
error, so `none` models every failure. -/
def goParseInt (s : String) : Option Int :=
  match s.toList with
  | [] => none
  | '+' :: r => goParseIntCore Bool.false r
  | '-' :: r => goParseIntCore Bool.true r
  | ds => goParseIntCore Bool.false ds

/-- Go `underscoreOK`: every underscore must sit between two digits (after an
optional leading sign; no hex prefix can occur in a scanned number). -/
def underscoreOKCore : Char → List Char → Bool
  | _, [] => Bool.true
  | prev, c :: r =>
    if c = '_' then
      match r with
      | c2 :: _ => prev.isDigit && c2.isDigit && underscoreOKCore c r
      | [] => Bool.false
    else underscoreOKCore c r

def underscoreOK (cs : List Char) : Bool :=
  match cs with
  | c :: r => if c = '+' || c = '-' then underscoreOKCore c r else underscoreOKCore '^' cs
  | [] => Bool.true

/-- Digit-or-underscore run, as `readFloat` consumes mantissa and exponent. -/
def digitU (c : Char) : Bool := c.isDigit || c = '_'

/-- A decimal value `m × 10^e`, exact (no binary64 rounding).  The pair is not
normalized; `q10` below gives its rational denotation. -/
abbrev Dec10 := Int × Int

/-- Rational denotation of a `Dec10` (used in propositions only). -/
def q10 (p : Dec10) : ℚ := (p.1 : ℚ) * (10 : ℚ) ^ (p.2 : ℤ)

/-- Whether `m × 10^e` is at or beyond the binary64 overflow threshold
`2^1024 − 2^970` (the largest finite double plus half an ULP): such decimals
make `ParseFloat` return ±Inf together with `ErrRange`. -/
def overflow64 (m e : Int) : Bool :=
  if 0 ≤ e then (2 ^ 1024 - 2 ^ 970 : Nat) ≤ m.natAbs * 10 ^ e.toNat
  else (2 ^ 1024 - 2 ^ 970 : Nat) * 10 ^ (-e).toNat ≤ m.natAbs

/-- `readFloat`'s mantissa step: the integer digit run, the fraction digit
run (empty when there is no `.`), and the unread suffix. -/
def readMantissa (cs : List Char) : List Char × List Char × List Char :=
  match span digitU cs with
  | (ip, cs2) =>
    match cs2 with
    | '.' :: r2 =>
      match span digitU r2 with
      | (fp, cs3) => (ip, fp, cs3)
    | _ => (ip, [], cs2)

/-- `readFloat`'s exponent step: the exponent value and the unread suffix
(zero when there is no `e`/`E`; `none` when an exponent marker has no
digits). -/
def readExponent : List Char → Option (Int × List Char)
  | e :: r3 =>
    if e = 'e' || e = 'E' then
      match (match r3 with
        | '+' :: r5 => (Bool.false, r5)
        | '-' :: r5 => (Bool.true, r5)
        | _ => (Bool.false, r3)) with
      | (esign, r4) =>
        match span digitU r4 with
        | (eds, r6) =>
          match eds.filter (·.isDigit) with
          | [] => none
          | edigits =>
            some (if esign then -(decNat edigits : Int) else (decNat edigits : Int), r6)
    else none
  | [] => some (0, [])

/-- The body of `ParseFloat` after the sign: mantissa (at least one digit),
optional exponent, full consumption, the underscore placement check over the
whole text, and the overflow range check.  Overflow is the only range error
`ParseFloat` has: `decimal.floatBits` takes the zero path on decimal
underflow without setting the overflow flag, so e.g. `1e-400` returns `0`
with a nil error — the exact decimal is kept here, and its binary64 rounding
(what the program stores) is `0`. -/
def goParseFloatCore (neg : Bool) (all cs1 : List Char) : Option Dec10 :=
  match readMantissa cs1 with
  | (ip, fp, cs3) =>
    match (ip ++ fp).filter (·.isDigit) with
    | [] => none
    | mantDigits =>
      match readExponent cs3 with
      | none => none
      | some (e, rem) =>
        if rem = [] ∧ underscoreOK all then
          let fracLen : Int := ((fp.filter (·.isDigit)).length : Int)
          let m : Int := if neg then -(decNat mantDigits : Int) else (decNat mantDigits : Int)
          let ex : Int := e - fracLen
          if overflow64 m ex then none
          else some (m, ex)
        else none

/-- `strconv.ParseFloat(s, 64)` on the decimal grammar (hex floats, `inf` and
`nan` cannot occur in a scanned number token): optional sign, mantissa digits
with underscores and an optional fraction (at least one digit overall), an
optional exponent with at least one digit, the whole string consumed, and
underscores only between digits.  The result is the exact decimal value;
`none` on syntax errors and on the overflow range error (Go's only range
error for decimal input — underflowing decimals are accepted and store 0). -/
def goParseFloat (s : String) : Option Dec10 :=
  match s.toList with
  | [] => none
  | '+' :: r => goParseFloatCore Bool.false s.toList r
  | '-' :: r => goParseFloatCore Bool.true s.toList r
  | all => goParseFloatCore Bool.false s.toList all

/-- `ast.RootNodeType` (its Go zero value, neither constant, is `none` at use
sites). -/
inductive RootNodeType where
  | object
  | array
deriving DecidableEq, Repr

/-- `ast.LiteralType`. -/
inductive LiteralType where
  | string
  | number
  | null
  | true
  | false
deriving DecidableEq, Repr

/-- The dynamically typed `Val any` payload of a literal: the values the
parser actually stores (`int64`, `float64`, `bool`, `string`).  A float is
kept as its exact decimal `m × 10^e` (binary64 rounding abstracted away). -/
inductive GoVal where
  | int (i : Int)
  | float (m e : Int)
  | bool (b : Bool)
  | str (s : String)
deriving DecidableEq, Repr

/-- `ast.Literal`. -/
structure Literal where
  literalType : LiteralType
  val : GoVal
deriving DecidableEq, Repr

/-- `ast.Identifier`. -/
structure Identifier where
  value : String
deriving DecidableEq, Repr

mutual

/-- What the `any`-typed value slots hold: `*Object`, `*Array` or `*Literal`
(as assigned in `parseValue` and `parseArrayItem`). -/
inductive Node where
  | obj : ObjectN → Node
  | arr : ArrayN → Node
  | lit : Literal → Node

/-- `ast.Value`. -/
inductive ValueN where
  | mk : Node → ValueN

/-- `ast.Object`: children, and the `Start`/`End` byte offsets. -/
inductive ObjectN where
  | mk : List PropertyN → Nat → Nat → ObjectN

/-- `ast.Property`: its `Value any` field holds a `*Value` (nil until set). -/
inductive PropertyN where
  | mk : Identifier → Option ValueN → PropertyN

/-- `ast.Array`. -/
inductive ArrayN where
  | mk : List ArrayItemN → Nat → Nat → ArrayN

/-- `ast.ArrayItem`: its `Value any` holds `*Object`, `*Array` or `*Literal`
directly (not wrapped in `*Value`). -/
inductive ArrayItemN where
  | mk : Node → ArrayItemN

end

def ObjectN.children : ObjectN → List PropertyN
  | .mk cs _ _ => cs

def ObjectN.start : ObjectN → Nat
  | .mk _ s _ => s

def ObjectN.endPos : ObjectN → Nat
  | .mk _ _ e => e

def ArrayN.children : ArrayN → List ArrayItemN
  | .mk cs _ _ => cs

def ArrayN.start : ArrayN → Nat
  | .mk _ s _ => s

def ArrayN.endPos : ArrayN → Nat
  | .mk _ _ e => e

def PropertyN.identifier : PropertyN → Identifier
  | .mk i _ => i

def PropertyN.value : PropertyN → Option ValueN
  | .mk _ v => v

/-- `ast.RootNode`; both fields start as Go zero values (`none`). -/
structure RootNode where
  rootNodeType : Option RootNodeType
  value : Option ValueN

/-- `ast.State`: the explicit parser state machines. -/
inductive State where
  | objectStart
  | objectOpen
  | objectProperty
  | objectComma
  | propertyStart
  | propertyKey
  | propertyColon
  | propertyValue
  | arrayStart
  | arrayOpen
  | arrayValue
  | arrayComma
deriving DecidableEq, Repr

/-! ### The parser (`parser` package) -/

/-- `parser.Parser`: the three-token window plus the not-yet-delivered tail of
the token stream (`NextItem` on the exhausted stream yields the zero `Item`,
as receiving from the closed channel does). -/
structure Parser where
  toks : List Item
  previous : Item
  current : Item
  peek : Item
deriving DecidableEq, Repr

/-- `Parser.next`. -/
def Parser.next (p : Parser) : Parser :=
  match p.toks with
  | [] => ⟨[], p.current, p.peek, zeroItem⟩
  | t :: r => ⟨r, p.current, p.peek, t⟩

/-- `parser.New`: reads two items so `current`/`peek` are populated. -/
def newParser (items : List Item) : Parser :=
  ((⟨items, zeroItem, zeroItem, zeroItem⟩ : Parser).next).next

def Parser.isPreviousToken (p : Parser) (t : Token) : Bool := p.previous.token = t

def Parser.isCurrentToken (p : Parser) (t : Token) : Bool := p.current.token = t

def Parser.isPeekToken (p : Parser) (t : Token) : Bool := p.peek.token = t

/-- `parseString`: `strconv.Unquote` with the error discarded, so a failed
unquote yields the zero string. -/
def Parser.parseString (p : Parser) : String :=
  (goUnquote p.current.val).getD ""

/-- `parseLiteral`: consumes exactly one token in every branch (the deferred
`p.next()` also runs on the error paths, whose state the callers drop). -/
def parseLiteral (p : Parser) : Except String (Literal × Parser) :=
  match p.current.token with
  | .string => .ok (⟨.string, .str p.parseString⟩, p.next)
  | .number =>
    match goParseInt p.current.val with
    | some i => .ok (⟨.number, .int i⟩, p.next)
    | none =>
      match goParseFloat p.current.val with
      | some (m, e) => .ok (⟨.number, .float m e⟩, p.next)
      | none => .error ("failed to parse number: incorrect syntax " ++ p.current.val)
  | .true => .ok (⟨.true, .bool Bool.true⟩, p.next)
  | .false => .ok (⟨.false, .bool Bool.false⟩, p.next)
  | .null => .ok (⟨.null, .str "null"⟩, p.next)
  | _ => .error ("failed to parse literal: incorrect syntax " ++ p.current.val)

mutual

/-- `parseValue`: dispatch on the current token. -/
def parseValue (n : Nat) (p : Parser) : Option (Except String (ValueN × Parser)) :=
  match n with
  | 0 => none
  | n + 1 =>
    match p.current.token with
    | .leftBrace =>
      match parseObjectLoop n p [] 0 .objectStart with
      | none => none
      | some (.error e) => some (.error e)
      | some (.ok (o, p2)) => some (.ok (⟨.obj o⟩, p2))
    | .leftBracket =>
      match parseArrayLoop n p [] 0 .arrayStart with
      | none => none
      | some (.error e) => some (.error e)
      | some (.ok (a, p2)) => some (.ok (⟨.arr a⟩, p2))
    | _ =>
      match parseLiteral p with
      | .error e => some (.error e)
      | .ok (l, p2) => some (.ok (⟨.lit l⟩, p2))

/-- The `parseObject` loop, with the accumulated children, the recorded
`Start`, and the machine state as arguments.  Hitting EOF in any state breaks
the loop and returns the object built so far, its `End` set to the current
position.  A state outside the object group never matches a case, so the Go
loop spins forever; the fueled model keeps recursing with nothing changed. -/
def parseObjectLoop (n : Nat) (p : Parser) (children : List PropertyN)
    (startP : Nat) (st : State) : Option (Except String (ObjectN × Parser)) :=
  match n with
  | 0 => none
  | n + 1 =>
    if p.isCurrentToken .eof then some (.ok (⟨children, startP, p.current.pos⟩, p))
    else
      match st with
      | .objectStart =>
        if p.isCurrentToken .leftBrace then
          parseObjectLoop n p.next children p.current.pos .objectOpen
        else
          some (.error ("failed to parse object: expected LeftBrace token but got: "
            ++ p.current.val))
      | .objectOpen =>
        if p.isCurrentToken .rightBrace then
          some (.ok (⟨children, startP, p.current.pos⟩, p))
        else
          match parsePropertyLoop n p ⟨""⟩ none .propertyStart with
          | none => none
          | some (.error e) => some (.error e)
          | some (.ok (prop, p2)) =>
            parseObjectLoop n p2 (children ++ [prop]) startP .objectProperty
      | .objectProperty =>
        if p.isCurrentToken .rightBrace then
          let p2 := p.next
          some (.ok (⟨children, startP, p2.current.pos⟩, p2))
        else if p.isCurrentToken .comma then
          parseObjectLoop n p.next children startP .objectComma
        else
          some (.error ("failed to parse property: expected RightBrace or Comma token but got: "
            ++ p.current.val))
      | .objectComma =>
        if p.isCurrentToken .rightBrace then
          some (.ok (⟨children, startP, p.current.pos⟩, p))
        else
          match parsePropertyLoop n p ⟨""⟩ none .propertyStart with
          | none => none
          | some (.error e) => some (.error e)
          | some (.ok (prop, p2)) =>
            parseObjectLoop n p2 (children ++ [prop]) startP .objectProperty
      | _ => parseObjectLoop n p children startP st

/-- The `parseProperty` loop.  EOF in any state returns the property built so
far (its value possibly still nil). -/
def parsePropertyLoop (n : Nat) (p : Parser) (ident : Identifier)
    (value : Option ValueN) (st : State) : Option (Except String (PropertyN × Parser)) :=
  match n with
  | 0 => none
  | n + 1 =>
    if p.isCurrentToken .eof then some (.ok (⟨ident, value⟩, p))
    else
      match st with
      | .propertyStart =>
        if p.isCurrentToken .string then
          parsePropertyLoop n p.next ⟨p.parseString⟩ value .propertyKey
        else
          some (.error ("failed to parse property start: expected String token but got: "
            ++ p.current.val))
      | .propertyKey =>
        if p.isCurrentToken .colon then
          parsePropertyLoop n p.next ident value .propertyColon
        else
          some (.error ("failed to parse property key: expected Colon token but got: "
            ++ p.current.val))
      | .propertyColon =>
        match parseValue n p with
        | none => none
        | some (.error e) => some (.error e)
        | some (.ok (v, p2)) => parsePropertyLoop n p2 ident (some v) .propertyValue
      | .propertyValue => some (.ok (⟨ident, value⟩, p))
      | _ => parsePropertyLoop n p ident value st

/-- The `parseArray` loop.  Note the two asymmetries of the source: the Start
state has no failure branch, and the Open state skips one extra token when the
peeked token is the closing bracket. -/
def parseArrayLoop (n : Nat) (p : Parser) (children : List ArrayItemN)
    (startP : Nat) (st : State) : Option (Except String (ArrayN × Parser)) :=
  match n with
  | 0 => none
  | n + 1 =>
    if p.isCurrentToken .eof then some (.ok (⟨children, startP, p.current.pos⟩, p))
    else
      match st with
      | .arrayStart =>
        if p.isCurrentToken .leftBracket then
          parseArrayLoop n p.next children p.current.pos .arrayOpen
        else parseArrayLoop n p children startP st
      | .arrayOpen =>
        if p.isCurrentToken .rightBracket then
          some (.ok (⟨children, startP, p.current.pos⟩, p))
        else
          match parseArrayItem n p with
          | none => none
          | some (.error e) => some (.error e)
          | some (.ok (item, p2)) =>
            let p3 := if p2.isPeekToken .rightBracket then p2.next else p2
            parseArrayLoop n p3 (children ++ [item]) startP .arrayValue
      | .arrayValue =>
        if p.isCurrentToken .rightBracket then
          some (.ok (⟨children, startP, p.current.pos⟩, p.next))
        else if p.isCurrentToken .comma then
          parseArrayLoop n p.next children startP .arrayComma
        else
          some (.error ("failed to parse array: expected RightBrace or Comma token but got: "
            ++ p.current.val))
      | .arrayComma =>
        if p.isCurrentToken .rightBracket then
          some (.ok (⟨children, startP, p.current.pos⟩, p))
        else
          match parseArrayItem n p with
          | none => none
          | some (.error e) => some (.error e)
          | some (.ok (item, p2)) =>
            parseArrayLoop n p2 (children ++ [item]) startP .arrayValue
      | _ => parseArrayLoop n p children startP st

/-- `parseArrayItem`: the item's value slot is the object, array or literal
itself. -/
def parseArrayItem (n : Nat) (p : Parser) : Option (Except String (ArrayItemN × Parser)) :=
  match n with
  | 0 => none
  | n + 1 =>
    match p.current.token with
    | .leftBrace =>
      match parseObjectLoop n p [] 0 .objectStart with
      | none => none
      | some (.error e) => some (.error e)
      | some (.ok (o, p2)) => some (.ok (⟨.obj o⟩, p2))
    | .leftBracket =>
      match parseArrayLoop n p [] 0 .arrayStart with
      | none => none
      | some (.error e) => some (.error e)
      | some (.ok (a, p2)) => some (.ok (⟨.arr a⟩, p2))
    | _ =>
      match parseLiteral p with
      | .error e => some (.error e)
      | .ok (l, p2) => some (.ok (⟨.lit l⟩, p2))

end

def startErrMsg : String := "failed to parse: missing JSON starting brace or bracket"

def closeErrMsg : String := "failed to parse: missing JSON closing brace or bracket"

/-- `validateStartingSyntax` (`none` = no error). -/
def validateStartingSyntax (p : Parser) (rnt : Option RootNodeType) : Option String :=
  match rnt with
  | some .object => if p.isCurrentToken .leftBrace then none else some startErrMsg
  | some .array => if p.isCurrentToken .leftBracket then none else some startErrMsg
  | none => some startErrMsg

/-- `validateClosingSyntax`: the current token must be EOF and the previous
one the matching closer. -/
def validateClosingSyntax (p : Parser) (rnt : Option RootNodeType) : Option String :=
  match rnt with
  | some .object =>
    if p.isCurrentToken .eof && p.isPreviousToken .rightBrace then none else some closeErrMsg
  | some .array =>
    if p.isCurrentToken .eof && p.isPreviousToken .rightBracket then none else some closeErrMsg
  | none => some closeErrMsg

/-- The root node type `Parse` assigns from the current token (Go's zero
value, assigned by neither case, is `none`). -/
def rootKindOf (t : Token) : Option RootNodeType :=
  match t with
  | .leftBrace => some .object
  | .leftBracket => some .array
  | _ => none

/-- `Parse`, with Go's two return values `(*ast.RootNode, error)` kept as a
pair of options; the final parser state is also returned.  The outer `none`
again means the fuel ran out. -/
def Parse (n : Nat) (p : Parser) : Option ((Option RootNode × Option String) × Parser) :=
  match validateStartingSyntax p (rootKindOf p.current.token) with
  | some err => some ((none, some err), p)
  | none =>
    match parseValue n p with
    | none => none
    | some (.error e) => some ((none, some e), p)
    | some (.ok (v, p2)) =>
      match validateClosingSyntax p2 (rootKindOf p.current.token) with
      | some err => some ((none, some err), p2)
      | none => some ((some ⟨rootKindOf p.current.token, some v⟩, none), p2)

/-- End-to-end pipeline: tokenize, then parse.  The token stream is computed
eagerly; an input whose scan diverges therefore evaluates to `none` (in Go the
corresponding `NextItem` call blocks forever).  This matches the program on
every input where `Parse` drains the lexer, which covers all terminating
behaviours exercised below. -/
def parseJSON (fuel : Nat) (s : String) : Option (Option RootNode × Option String) :=
  match tokenize fuel s with
  | none => none
  | some items => (Parse fuel (newParser items)).map (·.1)

/-- Result-shape probes used by concrete evaluations. -/
def resultErr (r : Option (Option RootNode × Option String)) : Option String :=
  match r with
  | some (_, some e) => some e
  | _ => none

def resultNode (r : Option (Option RootNode × Option String)) : Option RootNode :=
  match r with
  | some (some node, _) => some node
  | _ => none

/-- Whether the pipeline produced a root node. -/
def hasNode (r : Option (Option RootNode × Option String)) : Bool :=
  (resultNode r).isSome

/-! ### Specification-side JSON well-formedness

A checker for the specification's notion of a well-formed JSON document
(sections 2, 3 and 8 of the spec): whitespace-separated standard JSON values,
with an object or an array at the root.  It is written from the spec's words,
independently of the code above, to state refinement claims against. -/

/-- Skip JSON whitespace. -/
def specWs : List Char → List Char
  | c :: r => if c = ' ' || c = '\t' || c = '\r' || c = '\n' then specWs r else c :: r
  | [] => []

/-- Consume a JSON string body after the opening quote. -/
def specString : List Char → Option (List Char)
  | '"' :: r => some r
  | '\\' :: _ :: r => specString r
  | '\n' :: _ => none
  | _ :: r => specString r
  | [] => none

/-- Consume the digits of a JSON number (optional sign, digits, optional
fraction and exponent). -/
def specNumber (cs : List Char) : Option (List Char) :=
  let cs1 := match cs with
    | '-' :: r => r
    | '+' :: r => r
    | _ => cs
  let (ds, cs2) := span (·.isDigit) cs1
  if ds = [] then none
  else
    let cs3 := match cs2 with
      | '.' :: r2 =>
        let (fs, r3) := span (·.isDigit) r2
        if fs = [] then none else some r3
      | _ => some cs2
    match cs3 with
    | none => none
    | some cs4 =>
      match cs4 with
      | e :: r4 =>
        if e = 'e' || e = 'E' then
          let r5 := match r4 with
            | '+' :: r6 => r6
            | '-' :: r6 => r6
            | _ => r4
          let (es, r7) := span (·.isDigit) r5
          if es = [] then none else some r7
        else some cs4
      | [] => some []

mutual

/-- Consume one JSON value. -/
def specValue (n : Nat) (cs : List Char) : Option (List Char) :=
  match n with
  | 0 => none
  | n + 1 =>
    match specWs cs with
    | '{' :: r => specMembers n (specWs r) Bool.true
    | '[' :: r => specElems n (specWs r) Bool.true
    | '"' :: r => specString r
    | 'n' :: 'u' :: 'l' :: 'l' :: r => some r
    | 't' :: 'r' :: 'u' :: 'e' :: r => some r
    | 'f' :: 'a' :: 'l' :: 's' :: 'e' :: r => some r
    | other => specNumber other

/-- Consume object members up to and including the closing brace;
`first` marks that no member has been read yet (so `}` may follow at once). -/
def specMembers (n : Nat) (cs : List Char) (first : Bool) : Option (List Char) :=
  match n with
  | 0 => none
  | n + 1 =>
    match cs with
    | '}' :: r => if first then some r else none
    | '"' :: r =>
      match specString r with
      | none => none
      | some r2 =>
        match specWs r2 with
        | ':' :: r3 =>
          match specValue n r3 with
          | none => none
          | some r4 =>
            match specWs r4 with
            | ',' :: r5 => specMembers n (specWs r5) Bool.false
            | '}' :: r5 => some r5
            | _ => none
        | _ => none
    | _ => none

/-- Consume array elements up to and including the closing bracket. -/
def specElems (n : Nat) (cs : List Char) (first : Bool) : Option (List Char) :=
  match n with
  | 0 => none
  | n + 1 =>
    match cs with
    | ']' :: r => if first then some r else none
    | _ =>
      match specValue n cs with
      | none => none
      | some r2 =>
        match specWs r2 with
        | ',' :: r3 => specElems n (specWs r3) Bool.false
        | ']' :: r3 => some r3
        | _ => none

end

/-- Modelled from the spec: a well-formed JSON document whose outermost value
is an object or an array, with nothing but whitespace after it. -/
def specWellFormedJSON (s : String) : Bool :=
  let cs := specWs s.toList
  match cs with
  | '{' :: _ | '[' :: _ =>
    match specValue (s.toList.length + 1) cs with
    | some r => (specWs r) = []
    | none => Bool.false
  | _ => Bool.false

/-- A segment of a JSON string literal, for the amended C6: a plain character,
one of the single-character escapes Go also accepts, or a `\uXXXX` escape. -/
inductive JSeg where
  | plain (c : Char)
  | esc (e : Char)
  | uni (a b c d : Char)

/-- What the single-character escapes denote (on the seven supported ones). -/
def escDenote : Char → Char
  | 'b' => Char.ofNat 8
  | 'f' => Char.ofNat 12
  | 'n' => '\n'
  | 'r' => '\r'
  | 't' => '\t'
  | e => e

/-- The characters a segment contributes to the quoted token text. -/
def JSeg.render : JSeg → List Char
  | .plain c => [c]
  | .esc e => ['\\', e]
  | .uni a b c d => ['\\', 'u', a, b, c, d]

/-- The character a segment denotes. -/
def JSeg.denote : JSeg → Char
  | .plain c => c
  | .esc e => escDenote e
  | .uni a b c d => runeChar ((hexRun [a, b, c, d]).getD 0)

/-- Well-formedness: plain characters are not quote, backslash or newline;
escapes are among the seven shared JSON/Go escapes (`\/` is excluded: Go
rejects it, see the C6 counterexample); unicode escapes have four hex digits
denoting a non-surrogate scalar. -/
def JSeg.wfB : JSeg → Bool
  | .plain c => !(c = '"' || c = '\\' || c = '\n')
  | .esc e => decide (e ∈ (['"', '\\', 'b', 'f', 'n', 'r', 't'] : List Char))
  | .uni a b c d =>
    match hexRun [a, b, c, d] with
    | some v => decide (v < 0xd800 ∨ 0xe000 ≤ v)
    | none => Bool.false

/-- The quoted body rendered by a segment list. -/
def segsRender (segs : List JSeg) : List Char :=
  match segs with
  | [] => []
  | sg :: rest => sg.render ++ segsRender rest

/-- First property of a successfully parsed root object: its literal value. -/
def firstPropLit (r : Option (Option RootNode × Option String)) : Option GoVal :=
  match r with
  | some (some ⟨_, some ⟨.obj o⟩⟩, none) =>
    match o.children with
    | ⟨_, some ⟨.lit l⟩⟩ :: _ => some l.val
    | _ => none
  | _ => none

/-- First property of a successfully parsed root object: its key. -/
def firstPropKey (r : Option (Option RootNode × Option String)) : Option String :=
  match r with
  | some (some ⟨_, some ⟨.obj o⟩⟩, none) =>
    match o.children with
    | ⟨⟨k⟩, _⟩ :: _ => some k
    | _ => none
  | _ => none

/-- A key/value pair of a flat object at the token level: the key token's
text (arbitrary — quotes and all) and byte offset, the colon offset, and the
value's digit run and offset. -/
structure FlatProp where
  kval : String
  kpos : Nat
  cpos : Nat
  digits : List Char
  npos : Nat

/-- The value is a plain digit run in signed 64-bit range. -/
def FlatProp.wfB (fp : FlatProp) : Bool :=
  decide (fp.digits ≠ []) && fp.digits.all (·.isDigit) &&
    decide (decNat fp.digits ≤ 2 ^ 63 - 1)

/-- The three tokens of one pair. -/
def FlatProp.toks (fp : FlatProp) : List Item :=
  [⟨.string, fp.kpos, fp.kval⟩, ⟨.colon, fp.cpos, ":"⟩,
    ⟨.number, fp.npos, String.mk fp.digits⟩]

/-- The property the parser builds from one pair. -/
def FlatProp.toProp (fp : FlatProp) : PropertyN :=
  ⟨⟨(goUnquote fp.kval).getD ""⟩, some ⟨.lit ⟨.number, .int (decNat fp.digits)⟩⟩⟩

/-- The comma-separated token run of the pairs. -/
def propsToks : List FlatProp → List Item
  | [] => []
  | [fp] => fp.toks
  | fp :: rest => fp.toks ++ ⟨.comma, 0, ","⟩ :: propsToks rest

/-- The token stream of `{ k1 : n1 , ... }` with the given brace offsets. -/
def flatObjToks (p0 : Nat) (ps : List FlatProp) (pEnd pEOF : Nat) : List Item :=
  ⟨.leftBrace, p0, "\x7b"⟩ :: propsToks ps ++
    [⟨.rightBrace, pEnd, "\x7d"⟩, ⟨.eof, pEOF, ""⟩]

/-- The token stream that follows a pair's number token: either the object's
closing tokens, or a comma and the remaining pairs. -/
def tailFor (rest : List FlatProp) (pEnd pEOF : Nat) : List Item :=
  match rest with
  | [] => [⟨.rightBrace, pEnd, "\x7d"⟩, ⟨.eof, pEOF, ""⟩]
  | _ :: _ => ⟨.comma, 0, ","⟩ ::
      (propsToks rest ++ [⟨.rightBrace, pEnd, "\x7d"⟩, ⟨.eof, pEOF, ""⟩])

/-- An element of a flat array at the token level: a digit run and offset. -/
structure FlatItem where
  digits : List Char
  npos : Nat

def FlatItem.wfB (it : FlatItem) : Bool :=
  decide (it.digits ≠ []) && it.digits.all (·.isDigit) &&
    decide (decNat it.digits ≤ 2 ^ 63 - 1)

def FlatItem.toItem (it : FlatItem) : ArrayItemN :=
  ⟨.lit ⟨.number, .int (decNat it.digits)⟩⟩

def itemsToks : List FlatItem → List Item
  | [] => []
  | [it] => [⟨.number, it.npos, String.mk it.digits⟩]
  | it :: rest => ⟨.number, it.npos, String.mk it.digits⟩ :: ⟨.comma, 0, ","⟩ ::
      itemsToks rest

/-- The token stream of `[ n1 , ... , nk ]` with the given bracket offsets. -/
def flatArrToks (p0 : Nat) (items : List FlatItem) (pEnd pEOF : Nat) : List Item :=
  ⟨.leftBracket, p0, "["⟩ :: itemsToks items ++
    [⟨.rightBracket, pEnd, "]"⟩, ⟨.eof, pEOF, ""⟩]

/-- The token peeked right after an element: the closer, or the next comma. -/
def arrPeek (rest : List FlatItem) (pEnd : Nat) : Item :=
  match rest with
  | [] => ⟨.rightBracket, pEnd, "]"⟩
  | _ :: _ => ⟨.comma, 0, ","⟩

/-- The undelivered stream when the window sits on an element. -/
def arrToks (rest : List FlatItem) (pEnd pEOF : Nat) : List Item :=
  match rest with
  | [] => [⟨.eof, pEOF, ""⟩]
  | it2 :: rest2 => ⟨.number, it2.npos, String.mk it2.digits⟩ ::
      arrPeek rest2 pEnd :: arrToks rest2 pEnd pEOF

/-- The root object's recorded `(Start, End)` span, when the result holds one. -/
def rootObjSpan (r : Option (Option RootNode × Option String)) : Option (Nat × Nat) :=
  match r with
  | some (some ⟨_, some ⟨.obj o⟩⟩, _) => some (o.start, o.endPos)
  | _ => none

example : tokenize 50 "\x7b\x7d" =
    some [⟨.leftBrace, 0, "\x7b"⟩, ⟨.rightBrace, 1, "\x7d"⟩, ⟨.eof, 2, ""⟩] := by decide

example : tokenize 80 "\x7b\"a\": 1\x7d" =
    some [⟨.leftBrace, 0, "\x7b"⟩, ⟨.string, 1, "\"a\""⟩, ⟨.colon, 4, ":"⟩,
      ⟨.number, 6, "1"⟩, ⟨.rightBrace, 7, "\x7d"⟩, ⟨.eof, 8, ""⟩] := by decide

/-! ### `strconv.Unquote` (double-quote form) -/

example : goUnquote "\"abc123\"" = some "abc123" := by decide

example : goUnquote "\"a\\/b\"" = none := by decide

example : goUnquote "\"a\\u0041b\"" = some "aAb" := by decide

example : goUnquote "\"a\\nb\"" = some "a\nb" := by decide

/-! ### `strconv.ParseInt` and `strconv.ParseFloat` -/

example : goParseInt "210" = some 210 := by decide

example : goParseInt "-210" = some (-210) := by decide

example : goParseInt "1_0" = none := by decide

example : goParseInt "21.05" = none := by decide

example : goParseInt "9223372036854775807" = some 9223372036854775807 := by decide

example : goParseInt "9223372036854775808" = none := by decide

example : goParseInt "-9223372036854775808" = some (-9223372036854775808) := by decide

example : goParseFloat "21.05" = some (2105, -2) := by decide

example : goParseFloat "1.0E+2" = some (10, 1) := by decide

example : goParseFloat "1_0" = some (10, 0) := by decide

example : goParseFloat "1__0" = none := by decide

example : goParseFloat "2e+308" = none := by decide

example : goParseFloat "1e-400" = some (1, -400) := by decide

example : goParseFloat "5e" = none := by decide

example : goParseFloat "9223372036854775808" = some (9223372036854775808, 0) := by decide

/-! ### The AST (`ast` package) -/

example : specWellFormedJSON "\x7b\x7d" = Bool.true := by decide

example : specWellFormedJSON "[[],[]]" = Bool.true := by decide

example : specWellFormedJSON "\x7b\"a\": 1\x7d" = Bool.true := by decide

example : specWellFormedJSON "\x7b\"a\": 1" = Bool.false := by decide

example : specWellFormedJSON "*" = Bool.false := by decide

/-! ## Helper lemmas -/

/-- A passing closing check pins down the current and previous tokens. -/
theorem validateClosing_none {p : Parser} {rnt : Option RootNodeType}
    (h : validateClosingSyntax p rnt = none) :
    p.current.token = .eof ∧
      ((rnt = some .object ∧ p.previous.token = .rightBrace) ∨
        (rnt = some .array ∧ p.previous.token = .rightBracket)) := by
  rcases rnt with - | k
  · simp [validateClosingSyntax] at h
  rcases k
  · simp only [validateClosingSyntax] at h
    by_cases hc : (p.isCurrentToken Token.eof && p.isPreviousToken Token.rightBrace) = Bool.true
    · simp only [Parser.isCurrentToken, Parser.isPreviousToken, Bool.and_eq_true,
        decide_eq_true_eq] at hc
      exact ⟨hc.1, Or.inl ⟨rfl, hc.2⟩⟩
    · rw [if_neg hc] at h
      exact absurd h (by simp)
  · simp only [validateClosingSyntax] at h
    by_cases hc : (p.isCurrentToken Token.eof && p.isPreviousToken Token.rightBracket) = Bool.true
    · simp only [Parser.isCurrentToken, Parser.isPreviousToken, Bool.and_eq_true,
        decide_eq_true_eq] at hc
      exact ⟨hc.1, Or.inr ⟨rfl, hc.2⟩⟩
    · rw [if_neg hc] at h
      exact absurd h (by simp)

/-- A successful `Parse` ended with EOF current and the matching closer
previous. -/
theorem Parse_ok_closing {n : Nat} {p p2 : Parser} {root : RootNode}
    (h : Parse n p = some ((some root, none), p2)) :
    p2.current.token = .eof ∧
      ((root.rootNodeType = some .object ∧ p2.previous.token = .rightBrace) ∨
        (root.rootNodeType = some .array ∧ p2.previous.token = .rightBracket)) := by
  unfold Parse at h
  cases hs : validateStartingSyntax p (rootKindOf p.current.token) with
  | some err => rw [hs] at h; simp at h
  | none =>
    rw [hs] at h
    cases hv : parseValue n p with
    | none => rw [hv] at h; simp at h
    | some res =>
      rw [hv] at h
      match res with
      | .error e => simp at h
      | .ok (v, p3) =>
        simp only at h
        cases hc : validateClosingSyntax p3 (rootKindOf p.current.token) with
        | some err => rw [hc] at h; simp at h
        | none =>
          rw [hc] at h
          simp only [Option.some.injEq, Prod.mk.injEq] at h
          obtain ⟨⟨hroot, -⟩, rfl⟩ := h
          have hcl := validateClosing_none hc
          rw [← hroot]
          exact hcl

/-- Every `Parse` return site with an error carries a nil root node. -/
theorem Parse_err_nil {n : Nat} {p p2 : Parser} {r : Option RootNode × Option String}
    (h : Parse n p = some (r, p2)) (he : r.2.isSome) : r.1 = none := by
  unfold Parse at h
  cases hs : validateStartingSyntax p (rootKindOf p.current.token) with
  | some err =>
    rw [hs] at h
    injection h with h2
    injection h2 with h3 h4
    rw [← h3]
  | none =>
    rw [hs] at h
    cases hv : parseValue n p with
    | none => rw [hv] at h; simp at h
    | some res =>
      rw [hv] at h
      match res with
      | .error e =>
        simp only at h
        injection h with h2
        injection h2 with h3 h4
        rw [← h3]
      | .ok (v, p3) =>
        simp only at h
        cases hc : validateClosingSyntax p3 (rootKindOf p.current.token) with
        | some err =>
          rw [hc] at h
          injection h with h2
          injection h2 with h3 h4
          rw [← h3]
        | none =>
          rw [hc] at h
          injection h with h2
          injection h2 with h3 h4
          rw [← h3] at he
          simp at he

/-- The two-state loop the lexer enters on the input `nul`: the keyword scan
matches no prefix, consumes nothing, and hands the unchanged state back. -/
theorem nulLoop : ∀ n : Nat,
    lexToken n (initLexer "nul") = none ∧ lexNull n (initLexer "nul") = none := by
  intro n
  induction n with
  | zero => exact ⟨rfl, rfl⟩
  | succ n ih => exact ⟨ih.2, ih.1⟩

/-- The same loop on the input `tru`, through the boolean scan. -/
theorem truLoop : ∀ n : Nat,
    lexToken n (initLexer "tru") = none ∧ lexBool n (initLexer "tru") = none := by
  intro n
  induction n with
  | zero => exact ⟨rfl, rfl⟩
  | succ n ih => exact ⟨ih.2, ih.1⟩

/-! ## Claims -/

/-- C1: the claim states that every well-formed JSON object/array input
parses successfully with the matching root kind.  The code refutes it: the
well-formed inputs `{}` and `[[],[]]` (checked well-formed by the spec-side
`specWellFormedJSON`) both make `Parse` fail with the closing-syntax error and
return no tree.  An empty root container returns from its Open state without
consuming the closer, so the closing check never sees EOF. -/
theorem c1_wellformed_inputs_fail_to_parse :
    specWellFormedJSON "\x7b\x7d" = Bool.true ∧
      resultErr (parseJSON 100 "\x7b\x7d") = some closeErrMsg ∧
      hasNode (parseJSON 100 "\x7b\x7d") = Bool.false ∧
      specWellFormedJSON "[[],[]]" = Bool.true ∧
      resultErr (parseJSON 300 "[[],[]]") = some closeErrMsg ∧
      hasNode (parseJSON 300 "[[],[]]") = Bool.false :=
  ⟨by decide, by decide, by decide, by decide, by decide, by decide⟩

/-- C2: the claim states that tokenization terminates for every input, in
particular for keyword-like prefixes such as `nul` or `tru`.  The code
refutes it: on those inputs the scan bounces between `lexToken` and the
keyword state without consuming anything, so no fuel ever suffices — the Go
lexer spins forever and `NextItem` blocks instead of delivering an EOF or
Error item. -/
theorem c2_tokenize_diverges_on_nul :
    ∀ n : Nat, tokenize n "nul" = none ∧ tokenize n "tru" = none :=
  fun n => ⟨(nulLoop n).1, (truLoop n).1⟩

/-- C5: `Parse` succeeds only when, after the root value returns, the current
token is EOF and the previous token is the matching closer; and the input
`{"a": 1` (missing closing brace) fails with the closing-syntax error and no
tree. -/
theorem c5_parse_requires_eof_after_matching_closer :
    (∀ (n : Nat) (p p2 : Parser) (root : RootNode),
        Parse n p = some ((some root, none), p2) →
        p2.current.token = .eof ∧
          ((root.rootNodeType = some .object ∧ p2.previous.token = .rightBrace) ∨
            (root.rootNodeType = some .array ∧ p2.previous.token = .rightBracket))) ∧
      resultErr (parseJSON 200 "\x7b\"a\": 1") = some closeErrMsg ∧
      hasNode (parseJSON 200 "\x7b\"a\": 1") = Bool.false :=
  ⟨fun _ _ _ _ h => Parse_ok_closing h, by decide, by decide⟩

theorem c5_witness :
    (⟨[], ⟨.rightBracket, 2, "]"⟩, ⟨.eof, 3, ""⟩, zeroItem⟩ : Parser).current.token = .eof ∧
      (((⟨some .array, some ⟨.arr ⟨[⟨.lit ⟨.number, .int 1⟩⟩], 0, 2⟩⟩⟩ : RootNode).rootNodeType
            = some .object ∧
          (⟨[], ⟨.rightBracket, 2, "]"⟩, ⟨.eof, 3, ""⟩, zeroItem⟩ : Parser).previous.token
            = .rightBrace) ∨
        ((⟨some .array, some ⟨.arr ⟨[⟨.lit ⟨.number, .int 1⟩⟩], 0, 2⟩⟩⟩ : RootNode).rootNodeType
            = some .array ∧
          (⟨[], ⟨.rightBracket, 2, "]"⟩, ⟨.eof, 3, ""⟩, zeroItem⟩ : Parser).previous.token
            = .rightBracket)) :=
  c5_parse_requires_eof_after_matching_closer.1 20
    (newParser [⟨.leftBracket, 0, "["⟩, ⟨.number, 1, "1"⟩, ⟨.rightBracket, 2, "]"⟩,
      ⟨.eof, 3, ""⟩])
    ⟨[], ⟨.rightBracket, 2, "]"⟩, ⟨.eof, 3, ""⟩, zeroItem⟩
    ⟨some .array, some ⟨.arr ⟨[⟨.lit ⟨.number, .int 1⟩⟩], 0, 2⟩⟩⟩
    (by rfl)

/-- C8: whenever `Parse` reports an error, the returned root node is nil —
no partially built tree escapes, whichever sub-parse detected the error. -/
theorem c8_error_implies_no_ast :
    ∀ (n : Nat) (p p2 : Parser) (r : Option RootNode × Option String),
      Parse n p = some (r, p2) → r.2.isSome → r.1 = none :=
  fun _ _ _ _ h he => Parse_err_nil h he

theorem c8_witness :
    ((none, some startErrMsg) : Option RootNode × Option String).1 = none :=
  c8_error_implies_no_ast 10 (newParser [⟨.unknown, 0, "*"⟩, ⟨.eof, 1, ""⟩])
    (newParser [⟨.unknown, 0, "*"⟩, ⟨.eof, 1, ""⟩]) (none, some startErrMsg)
    (by rfl) (by rfl)

theorem string_mk_toList (cs : List Char) : (String.mk cs).toList = cs := rfl

theorem goParseIntCore_digits {b : Bool} {ds : List Char} (h1 : ds ≠ [])
    (h2 : ∀ c ∈ ds, c.isDigit)
    (h3 : if b then decNat ds ≤ 2 ^ 63 else decNat ds ≤ 2 ^ 63 - 1) :
    goParseIntCore b ds =
      some (if b then -(decNat ds : Int) else (decNat ds : Int)) := by
  unfold goParseIntCore
  rw [if_neg h1]
  rw [if_pos (List.all_eq_true.mpr (by intro x hx; simpa using h2 x (by simpa using hx)))]
  rcases b
  · simp only [Bool.false_eq_true, if_false] at h3 ⊢
    have : -(2 ^ 63 : Int) ≤ (decNat ds : Int) ∧ (decNat ds : Int) ≤ 2 ^ 63 - 1 := by omega
    rw [if_pos this]
  · simp only [if_true] at h3 ⊢
    have : -(2 ^ 63 : Int) ≤ -(decNat ds : Int) ∧ -(decNat ds : Int) ≤ 2 ^ 63 - 1 := by omega
    rw [if_pos this]

theorem goParseInt_cons_of_not_sign {c : Char} {r : List Char} (hcp : c ≠ '+') (hcm : c ≠ '-') :
    goParseInt (String.mk (c :: r)) = goParseIntCore Bool.false (c :: r) := by
  unfold goParseInt
  rw [string_mk_toList]
  split
  · rename_i h
    exact absurd h (by simp)
  · rename_i r2 h
    injection h with h1 h2
    exact absurd h1 hcp
  · rename_i r2 h
    injection h with h1 h2
    exact absurd h1 hcm
  · rfl

/-- `goParseInt` on an optional sign followed by a digit run. -/
theorem goParseInt_signed {g d : List Char} (hs : g = [] ∨ g = ['+'] ∨ g = ['-'])
    (h1 : d ≠ []) (h2 : ∀ c ∈ d, c.isDigit)
    (h3 : if g = ['-'] then decNat d ≤ 2 ^ 63 else decNat d ≤ 2 ^ 63 - 1) :
    goParseInt (String.mk (g ++ d)) =
      some (if g = ['-'] then -(decNat d : Int) else (decNat d : Int)) := by
  rcases hs with rfl | rfl | rfl
  · rw [if_neg (by simp)] at h3
    rw [if_neg (by simp), List.nil_append]
    match d, h1 with
    | c :: r, _ =>
      have hc : c.isDigit := h2 c (by simp)
      have hcp : c ≠ '+' := by rintro rfl; exact absurd hc (by decide)
      have hcm : c ≠ '-' := by rintro rfl; exact absurd hc (by decide)
      rw [goParseInt_cons_of_not_sign hcp hcm]
      have := goParseIntCore_digits (b := Bool.false) (by simp) h2 (by simpa using h3)
      simpa using this
  · rw [if_neg (by simp)] at h3
    rw [if_neg (by simp)]
    show goParseIntCore Bool.false d = some (decNat d : Int)
    have := goParseIntCore_digits (b := Bool.false) h1 h2 (by simpa using h3)
    simpa using this
  · rw [if_pos rfl] at h3
    rw [if_pos rfl]
    show goParseIntCore Bool.true d = some (-(decNat d : Int))
    have := goParseIntCore_digits (b := Bool.true) h1 h2 (by simpa using h3)
    simpa using this

theorem goParseIntCore_none {neg : Bool} {ds : List Char} {c : Char} (hmem : c ∈ ds)
    (h1 : c.isDigit = Bool.false) : goParseIntCore neg ds = none := by
  unfold goParseIntCore
  rw [if_neg (by rintro rfl; simp at hmem)]
  rw [if_neg]
  intro hall
  have := List.all_eq_true.mp hall c (by simpa using hmem)
  simp only [decide_eq_true_eq] at this
  rw [h1] at this
  exact absurd this (by simp)

/-- Any character that is neither a digit nor a sign makes `ParseInt` fail. -/
theorem goParseInt_none_of_bad {s : String} {c : Char} (hmem : c ∈ s.toList)
    (h1 : c.isDigit = Bool.false) (h2 : c ≠ '+') (h3 : c ≠ '-') : goParseInt s = none := by
  unfold goParseInt
  split
  · rfl
  · rename_i r h
    rw [h] at hmem
    rcases List.mem_cons.mp hmem with rfl | hr
    · exact absurd rfl h2
    · exact goParseIntCore_none hr h1
  · rename_i r h
    rw [h] at hmem
    rcases List.mem_cons.mp hmem with rfl | hr
    · exact absurd rfl h3
    · exact goParseIntCore_none hr h1
  · rename_i h hne1 hne2
    exact goParseIntCore_none hmem h1

theorem parseLiteral_number_int {toks : List Item} {prev peek : Item} {pos : Nat}
    {s : String} {i : Int} (h : goParseInt s = some i) :
    parseLiteral ⟨toks, prev, ⟨.number, pos, s⟩, peek⟩ =
      .ok (⟨.number, .int i⟩, (⟨toks, prev, ⟨.number, pos, s⟩, peek⟩ : Parser).next) := by
  unfold parseLiteral
  simp only
  rw [h]

theorem parseLiteral_number_float {toks : List Item} {prev peek : Item} {pos : Nat}
    {s : String} {m e : Int} (hint : goParseInt s = none)
    (hfloat : goParseFloat s = some (m, e)) :
    parseLiteral ⟨toks, prev, ⟨.number, pos, s⟩, peek⟩ =
      .ok (⟨.number, .float m e⟩, (⟨toks, prev, ⟨.number, pos, s⟩, peek⟩ : Parser).next) := by
  unfold parseLiteral
  simp only
  rw [hint, hfloat]

theorem span_all {p : Char → Bool} : ∀ {xs : List Char}, (∀ c ∈ xs, p c) → span p xs = (xs, [])
  | [], _ => rfl
  | x :: xs, h => by
    unfold span
    rw [if_pos (h x (by simp))]
    rw [span_all (fun c hc => h c (by simp [hc]))]

theorem readMantissa_all {cs : List Char} (h : ∀ c ∈ cs, digitU c) :
    readMantissa cs = (cs, [], []) := by
  unfold readMantissa
  rw [span_all h]

theorem core_step (prev c : Char) (r : List Char) (h : c ≠ '_') :
    underscoreOKCore prev (c :: r) = underscoreOKCore c r := by
  conv_lhs => unfold underscoreOKCore
  rw [if_neg h]

theorem core_underscore (prev c2 : Char) (r2 : List Char) :
    underscoreOKCore prev ('_' :: c2 :: r2) =
      (prev.isDigit && c2.isDigit && underscoreOKCore '_' (c2 :: r2)) := by
  conv_lhs => unfold underscoreOKCore
  rw [if_pos rfl]

theorem underscoreOKCore_digits : ∀ {ds : List Char} (prev : Char),
    (∀ c ∈ ds, c.isDigit) → underscoreOKCore prev ds = Bool.true
  | [], _, _ => rfl
  | d :: ds, prev, h => by
    rw [core_step prev d ds (by have := h d (by simp); rintro rfl; exact absurd this (by decide))]
    exact underscoreOKCore_digits d (fun c hc => h c (by simp [hc]))

theorem underscoreOKCore_mid {d2 : List Char} (h2 : d2 ≠ [])
    (hd2 : ∀ c ∈ d2, c.isDigit) :
    ∀ {d1 : List Char} (prev : Char), d1 ≠ [] → (∀ c ∈ d1, c.isDigit) →
      underscoreOKCore prev (d1 ++ '_' :: d2) = Bool.true
  | [], _, hne, _ => absurd rfl hne
  | [d], prev, _, hd1 => by
    have hdd : d.isDigit := hd1 d (by simp)
    match d2, h2, hd2 with
    | c2 :: r2, _, hd2 =>
      have hc2 : c2.isDigit := hd2 c2 (by simp)
      show underscoreOKCore prev (d :: '_' :: c2 :: r2) = Bool.true
      rw [core_step prev d _ (by rintro rfl; exact absurd hdd (by decide))]
      rw [core_underscore d c2 r2]
      rw [hdd, hc2, underscoreOKCore_digits '_' hd2]
      rfl
  | d :: d' :: ds, prev, _, hd1 => by
    have hdd : d.isDigit := hd1 d (by simp)
    show underscoreOKCore prev (d :: ((d' :: ds) ++ '_' :: d2)) = Bool.true
    rw [core_step prev d _ (by rintro rfl; exact absurd hdd (by decide))]
    exact underscoreOKCore_mid h2 hd2 d (by simp) (fun c hc => hd1 c (by simp [hc]))

theorem underscoreOK_mid {a b : List Char} (h1 : a ≠ []) (h2 : b ≠ [])
    (hd1 : ∀ c ∈ a, c.isDigit) (hd2 : ∀ c ∈ b, c.isDigit) :
    underscoreOK (a ++ '_' :: b) = Bool.true := by
  match a, h1, hd1 with
  | c :: r, _, hd1 =>
    have hc : c.isDigit := hd1 c (by simp)
    show underscoreOK (c :: (r ++ '_' :: b)) = Bool.true
    simp only [underscoreOK]
    rw [if_neg]
    · exact underscoreOKCore_mid h2 hd2 '^' (by simp) hd1
    · simp only [Bool.or_eq_true, not_or, decide_eq_true_eq]
      constructor
      · rintro rfl
        exact absurd hc (by decide)
      · rintro rfl
        exact absurd hc (by decide)

theorem overflow64_small {m : Int} (h : m.natAbs ≤ 2 ^ 64) : overflow64 m 0 = Bool.false := by
  unfold overflow64
  rw [if_pos (le_refl (0 : Int))]
  simp only [Int.toNat_zero, pow_zero, mul_one, decide_eq_false_iff_not]
  have h2 : (2 : Nat) ^ 64 < 2 ^ 1024 - 2 ^ 970 := by norm_num
  omega

theorem goParseFloat_cons_of_not_sign {c : Char} {r : List Char} (hcp : c ≠ '+')
    (hcm : c ≠ '-') :
    goParseFloat (String.mk (c :: r)) = goParseFloatCore Bool.false (c :: r) (c :: r) := by
  unfold goParseFloat
  rw [string_mk_toList]
  split
  · rename_i h
    exact absurd h (by simp)
  · rename_i r2 h
    injection h with hh1 hh2
    exact absurd hh1 hcp
  · rename_i r2 h
    injection h with hh1 hh2
    exact absurd hh1 hcm
  · rename_i h hne1 hne2
    rfl

theorem goParseFloat_underscored {d1 d2 : List Char} (h1 : d1 ≠ []) (h2 : d2 ≠ [])
    (hd1 : ∀ c ∈ d1, c.isDigit) (hd2 : ∀ c ∈ d2, c.isDigit)
    (hb : decNat (d1 ++ d2) ≤ 2 ^ 63 - 1) :
    goParseFloat (String.mk (d1 ++ '_' :: d2)) = some ((decNat (d1 ++ d2) : Int), 0) := by
  match d1, h1, hd1 with
  | c :: r, _, hd1 =>
    have hc : c.isDigit := hd1 c (by simp)
    have hcp : c ≠ '+' := by rintro rfl; exact absurd hc (by decide)
    have hcm : c ≠ '-' := by rintro rfl; exact absurd hc (by decide)
    show goParseFloat (String.mk (c :: (r ++ '_' :: d2))) = _
    rw [goParseFloat_cons_of_not_sign hcp hcm]
    have hall : ∀ x ∈ c :: (r ++ '_' :: d2), digitU x := by
      intro x hx
      rcases List.mem_cons.mp hx with rfl | hx2
      · simp [digitU, hc]
      · rcases List.mem_append.mp hx2 with hx3 | hx4
        · simp [digitU, hd1 x (by simp [hx3])]
        · rcases List.mem_cons.mp hx4 with rfl | hx5
          · simp [digitU]
          · simp [digitU, hd2 x hx5]
    unfold goParseFloatCore
    rw [readMantissa_all hall]
    have hfil : (c :: (r ++ '_' :: d2) ++ []).filter (·.isDigit) = c :: (r ++ d2) := by
      rw [List.append_nil]
      rw [List.filter_cons_of_pos (by simpa using hc)]
      rw [List.filter_append]
      rw [List.filter_eq_self.mpr (by intro a ha; simpa using hd1 a (by simp [ha]))]
      rw [List.filter_cons_of_neg (by simp)]
      rw [List.filter_eq_self.mpr (by intro a ha; simpa using hd2 a ha)]
    have hmid := underscoreOK_mid (a := c :: r) (b := d2) (by simp) h2 hd1 hd2
    simp only
    rw [hfil]
    simp only [readExponent]
    rw [if_pos ⟨trivial, hmid⟩]
    have hm : ((decNat (c :: (r ++ d2)) : Int)).natAbs ≤ 2 ^ 64 := by
      have hmm : decNat (c :: (r ++ d2)) ≤ 2 ^ 63 - 1 := hb
      simp only [Int.natAbs_ofNat]
      omega
    simp only [Bool.false_eq_true, if_false, List.filter_nil, List.length_nil,
      Nat.cast_zero, sub_zero]
    rw [overflow64_small hm]
    simp only [Bool.false_eq_true, if_false]
    rfl

/-- C3 (counterexample): the out-of-range numeric text `2e+308`, which the
claim says parses to a float with no error, in fact makes `ParseFloat` fail
with a range error, so `parseLiteral` reports a syntax error and `Parse`
returns no tree. -/
theorem c3_counterexample :
    resultErr (parseJSON 200 "[2e+308]") =
        some "failed to parse number: incorrect syntax 2e+308" ∧
      hasNode (parseJSON 200 "[2e+308]") = Bool.false :=
  ⟨by decide, by decide⟩

/-- C3 (amended): a Number token whose text is an optional sign followed by a
plain digit run denoting a value in signed 64-bit range is stored as that
integer; a Number token containing a `.`, `e` or `E` whose text `ParseFloat`
accepts is stored as the (exact decimal) float value, with no error.
`ParseFloat` accepts every syntactically valid decimal except an overflowing
one — decimal underflow such as `1e-400` is accepted and stores `0` — so the
float case covers exactly the non-overflowing valid texts.  The original
claim's residue "every other numeric text parses as a float with no error" is
refuted by `c3_counterexample`: `2e+308` overflows `ParseFloat`, so
`parseLiteral` errors and the whole parse fails. -/
theorem c3_amended :
    (∀ (toks : List Item) (prev peek : Item) (pos : Nat) (sgn ds : List Char),
        (sgn = [] ∨ sgn = ['+'] ∨ sgn = ['-']) → ds ≠ [] → (∀ c ∈ ds, c.isDigit) →
        (if sgn = ['-'] then decNat ds ≤ 2 ^ 63 else decNat ds ≤ 2 ^ 63 - 1) →
        parseLiteral ⟨toks, prev, ⟨.number, pos, String.mk (sgn ++ ds)⟩, peek⟩ =
          .ok (⟨.number, .int (if sgn = ['-'] then -(decNat ds : Int) else (decNat ds : Int))⟩,
            (⟨toks, prev, ⟨.number, pos, String.mk (sgn ++ ds)⟩, peek⟩ : Parser).next)) ∧
      (∀ (toks : List Item) (prev peek : Item) (pos : Nat) (s : String) (c : Char) (m e : Int),
        c ∈ s.toList → (c = '.' ∨ c = 'e' ∨ c = 'E') →
        goParseFloat s = some (m, e) →
        parseLiteral ⟨toks, prev, ⟨.number, pos, s⟩, peek⟩ =
          .ok (⟨.number, .float m e⟩, (⟨toks, prev, ⟨.number, pos, s⟩, peek⟩ : Parser).next)) :=
  ⟨fun _ _ _ _ sgn ds hs h1 h2 h3 =>
      parseLiteral_number_int (goParseInt_signed hs h1 h2 h3),
   fun _ _ _ _ s c m e hmem hke hfl =>
      parseLiteral_number_float
        (goParseInt_none_of_bad hmem (by rcases hke with rfl | rfl | rfl <;> decide)
          (by rcases hke with rfl | rfl | rfl <;> decide)
          (by rcases hke with rfl | rfl | rfl <;> decide)) hfl⟩

theorem c3_amended_witness :
    parseLiteral ⟨[], zeroItem, ⟨.number, 0, "210"⟩, zeroItem⟩ =
        .ok (⟨.number, .int 210⟩,
          (⟨[], zeroItem, ⟨.number, 0, "210"⟩, zeroItem⟩ : Parser).next) ∧
      parseLiteral ⟨[], zeroItem, ⟨.number, 0, "21.05"⟩, zeroItem⟩ =
        .ok (⟨.number, .float 2105 (-2)⟩,
          (⟨[], zeroItem, ⟨.number, 0, "21.05"⟩, zeroItem⟩ : Parser).next) :=
  ⟨c3_amended.1 [] zeroItem zeroItem 0 [] ['2', '1', '0'] (Or.inl rfl) (by decide) (by decide)
      (by decide),
    c3_amended.2 [] zeroItem zeroItem 0 "21.05" '.' 2105 (-2) (by decide) (by decide)
      (by decide)⟩

/-- C10: a Number token whose text is a digit run with an interior underscore
(such as `1_0`) and no `.` or exponent is stored as a float, not an integer:
`ParseInt` in base 10 rejects underscores outright, while `ParseFloat` accepts
an underscore sandwiched between digits, so the fallback float path wins. -/
theorem c10_underscored_int_parses_as_float :
    ∀ (toks : List Item) (prev peek : Item) (pos : Nat) (d1 d2 : List Char),
      d1 ≠ [] → d2 ≠ [] → (∀ c ∈ d1, c.isDigit) → (∀ c ∈ d2, c.isDigit) →
      decNat (d1 ++ d2) ≤ 2 ^ 63 - 1 →
      parseLiteral ⟨toks, prev, ⟨.number, pos, String.mk (d1 ++ '_' :: d2)⟩, peek⟩ =
        .ok (⟨.number, .float (decNat (d1 ++ d2) : Int) 0⟩,
          (⟨toks, prev, ⟨.number, pos, String.mk (d1 ++ '_' :: d2)⟩, peek⟩ : Parser).next) :=
  fun _ _ _ _ d1 d2 h1 h2 hd1 hd2 hb =>
    parseLiteral_number_float
      (goParseInt_none_of_bad (s := String.mk (d1 ++ '_' :: d2)) (c := '_')
        (by rw [string_mk_toList]; simp) (by decide) (by decide) (by decide))
      (goParseFloat_underscored h1 h2 hd1 hd2 hb)

theorem c10_witness :
    parseLiteral ⟨[], zeroItem, ⟨.number, 0, "1_0"⟩, zeroItem⟩ =
      .ok (⟨.number, .float 10 0⟩,
        (⟨[], zeroItem, ⟨.number, 0, "1_0"⟩, zeroItem⟩ : Parser).next) :=
  c10_underscored_int_parses_as_float [] zeroItem zeroItem 0 ['1'] ['0'] (by decide) (by decide)
    (by decide) (by decide) (by decide)

theorem unquoteBody_plain_step {m : Nat} {c : Char} {Y : List Char} (h1 : c ≠ '"')
    (h2 : c ≠ '\\') (h3 : c ≠ '\n') :
    unquoteBody (m + 1) (c :: Y) =
      match unquoteBody m Y with
      | none => none
      | some tail => some (c :: tail) := by
  conv_lhs => rw [unquoteBody]
  rw [if_neg h1, if_neg h3, if_neg h2]

theorem unquoteBody_esc_step {m : Nat} {e u : Char} {Y t : List Char}
    (hesc : unquoteEsc (e :: Y) = some (u, t)) :
    unquoteBody (m + 1) ('\\' :: e :: Y) =
      match unquoteBody m t with
      | none => none
      | some tail => some (u :: tail) := by
  have h0 : unquoteBody (m + 1) ('\\' :: e :: Y) =
      match unquoteEsc (e :: Y) with
      | none => none
      | some (ch2, r3) =>
        match unquoteBody m r3 with
        | none => none
        | some tail => some (ch2 :: tail) := rfl
  rw [h0, hesc]

theorem unquoteBody_segs :
    ∀ (segs : List JSeg) (n : Nat), (∀ sg ∈ segs, JSeg.wfB sg) →
      (segsRender segs).length < n →
      unquoteBody n (segsRender segs ++ ['"']) = some (segs.map JSeg.denote) := by
  intro segs
  induction segs with
  | nil =>
    intro n _ hn
    match n, hn with
    | m + 1, _ => rfl
  | cons sg rest ih =>
    intro n hwf hn
    have hwfs : JSeg.wfB sg := hwf sg (by simp)
    have hwfr : ∀ x ∈ rest, JSeg.wfB x := fun x hx => hwf x (by simp [hx])
    obtain ⟨m, rfl⟩ : ∃ m, n = m + 1 := ⟨n - 1, by omega⟩
    match sg with
    | .plain c =>
      simp only [JSeg.wfB, Bool.not_eq_true', Bool.or_eq_false_iff,
        decide_eq_false_iff_not] at hwfs
      have hlen : (segsRender rest).length < m := by
        simp only [segsRender, JSeg.render, List.length_append, List.length_cons,
          List.length_nil] at hn
        omega
      show unquoteBody (m + 1) ((c :: segsRender rest) ++ ['"']) = _
      rw [List.cons_append]
      rw [unquoteBody_plain_step hwfs.1.1 hwfs.1.2 hwfs.2]
      rw [ih m hwfr hlen]
      rfl
    | .esc e =>
      have hlen : (segsRender rest).length < m := by
        simp only [segsRender, JSeg.render, List.length_append, List.length_cons,
          List.length_nil] at hn
        omega
      simp only [JSeg.wfB, decide_eq_true_eq] at hwfs
      fin_cases hwfs
      all_goals simp only [segsRender, JSeg.render, List.cons_append, List.nil_append,
        List.append_assoc]
      · rw [unquoteBody_esc_step (e := '"') (u := '"')
          (t := segsRender rest ++ ['"']) rfl, ih m hwfr hlen]
        rfl
      · rw [unquoteBody_esc_step (e := '\\') (u := '\\')
          (t := segsRender rest ++ ['"']) rfl, ih m hwfr hlen]
        rfl
      · rw [unquoteBody_esc_step (e := 'b') (u := Char.ofNat 8)
          (t := segsRender rest ++ ['"']) rfl, ih m hwfr hlen]
        rfl
      · rw [unquoteBody_esc_step (e := 'f') (u := Char.ofNat 12)
          (t := segsRender rest ++ ['"']) rfl, ih m hwfr hlen]
        rfl
      · rw [unquoteBody_esc_step (e := 'n') (u := '\n')
          (t := segsRender rest ++ ['"']) rfl, ih m hwfr hlen]
        rfl
      · rw [unquoteBody_esc_step (e := 'r') (u := '\r')
          (t := segsRender rest ++ ['"']) rfl, ih m hwfr hlen]
        rfl
      · rw [unquoteBody_esc_step (e := 't') (u := '\t')
          (t := segsRender rest ++ ['"']) rfl, ih m hwfr hlen]
        rfl
    | .uni a b c d =>
      have hlen : (segsRender rest).length < m := by
        simp only [segsRender, JSeg.render, List.length_append, List.length_cons,
          List.length_nil] at hn
        omega
      rcases hh : hexRun [a, b, c, d] with - | v
      · exfalso
        simp only [JSeg.wfB] at hwfs
        rw [hh] at hwfs
        exact absurd hwfs (by simp)
      · have hesc : unquoteEsc ('u' :: a :: b :: c :: d :: (segsRender rest ++ ['"'])) =
            some (runeChar v, segsRender rest ++ ['"']) := by
          have h1 : unquoteEsc ('u' :: a :: b :: c :: d :: (segsRender rest ++ ['"'])) =
              (hexRun [a, b, c, d]).bind
                (fun w => some (runeChar w, segsRender rest ++ ['"'])) := rfl
          rw [h1, hh]
          rfl
        show unquoteBody (m + 1)
            (((JSeg.uni a b c d).render ++ segsRender rest) ++ ['"']) = _
        rw [show ((JSeg.uni a b c d).render ++ segsRender rest) ++ ['"'] =
          '\\' :: 'u' :: a :: b :: c :: d :: (segsRender rest ++ ['"']) from rfl]
        rw [unquoteBody_esc_step hesc, ih m hwfr hlen]
        simp only [List.map_cons, JSeg.denote, hh, Option.getD_some]

theorem goUnquote_segs {segs : List JSeg} (h : ∀ sg ∈ segs, JSeg.wfB sg) :
    goUnquote (String.mk ('"' :: (segsRender segs ++ ['"']))) =
      some (String.mk (segs.map JSeg.denote)) := by
  show (unquoteBody ((segsRender segs ++ ['"']).length + 1)
    (segsRender segs ++ ['"'])).map String.mk = _
  rw [unquoteBody_segs segs _ h (by simp only [List.length_append, List.length_cons, List.length_nil]; omega)]
  rfl

theorem parseString_segs {toks : List Item} {prev peek : Item} {pos : Nat}
    {segs : List JSeg} (h : ∀ sg ∈ segs, JSeg.wfB sg) :
    (⟨toks, prev, ⟨.string, pos, String.mk ('"' :: (segsRender segs ++ ['"']))⟩,
        peek⟩ : Parser).parseString = String.mk (segs.map JSeg.denote) := by
  unfold Parser.parseString
  rw [goUnquote_segs h]
  rfl

theorem parseLiteral_string (toks : List Item) (prev peek : Item) (pos : Nat) (s : String) :
    parseLiteral ⟨toks, prev, ⟨.string, pos, s⟩, peek⟩ =
      .ok (⟨.string, .str (⟨toks, prev, ⟨.string, pos, s⟩, peek⟩ : Parser).parseString⟩,
        (⟨toks, prev, ⟨.string, pos, s⟩, peek⟩ : Parser).next) := rfl

/-- C6 (counterexample): the JSON-legal escape `\/`, which the claim says is
resolved to `/`, in fact makes `strconv.Unquote` fail, and the program
silently stores the empty string instead of `a/b`. -/
theorem c6_counterexample :
    firstPropLit (parseJSON 400 "\x7b\"k\": \"a\\/b\"\x7d") = some (.str "") ∧
      GoVal.str "" ≠ GoVal.str "a/b" ∧ goUnquote "\"a\\/b\"" = none :=
  ⟨by decide, by decide, by decide⟩

/-- C6 (amended): for a String token whose quoted body is built from plain
characters, the single-character escapes except `\/` (Go's `Unquote` accepts
`\"`, `\\`, `\b`, `\f`, `\n`, `\r`, `\t` but rejects the JSON-legal `\/`), and
`\uXXXX` escapes, the stored string is the body with those escapes resolved.
The original claim's inclusion of `\/` is refuted by `c6_counterexample`:
`"a\/b"` makes `Unquote` fail and the empty string is stored instead. -/
theorem c6_amended :
    ∀ (toks : List Item) (prev peek : Item) (pos : Nat) (segs : List JSeg),
      (∀ sg ∈ segs, JSeg.wfB sg) →
      parseLiteral
          ⟨toks, prev, ⟨.string, pos, String.mk ('"' :: (segsRender segs ++ ['"']))⟩, peek⟩ =
        .ok (⟨.string, .str (String.mk (segs.map JSeg.denote))⟩,
          (⟨toks, prev, ⟨.string, pos, String.mk ('"' :: (segsRender segs ++ ['"']))⟩,
            peek⟩ : Parser).next) := by
  intro toks prev peek pos segs h
  rw [parseLiteral_string, parseString_segs h]

theorem c6_amended_witness :
    parseLiteral ⟨[], zeroItem, ⟨.string, 0, "\"a\\n\\u0041\""⟩, zeroItem⟩ =
      .ok (⟨.string, .str "a\nA"⟩,
        (⟨[], zeroItem, ⟨.string, 0, "\"a\\n\\u0041\""⟩, zeroItem⟩ : Parser).next) :=
  c6_amended [] zeroItem zeroItem 0
    [.plain 'a', .esc 'n', .uni '0' '0' '4' '1'] (by decide)

theorem parseValue_number {m : Nat} {toks : List Item} {prev peek : Item} {pos : Nat}
    {s : String} {i : Int} (h : goParseInt s = some i) :
    parseValue (m + 1) ⟨toks, prev, ⟨.number, pos, s⟩, peek⟩ =
      some (.ok (⟨.lit ⟨.number, .int i⟩⟩,
        (⟨toks, prev, ⟨.number, pos, s⟩, peek⟩ : Parser).next)) := by
  have h0 : parseValue (m + 1) ⟨toks, prev, ⟨.number, pos, s⟩, peek⟩ =
      match parseLiteral ⟨toks, prev, ⟨.number, pos, s⟩, peek⟩ with
      | .error e => some (.error e)
      | .ok (l, p2) => some (.ok (⟨.lit l⟩, p2)) := rfl
  rw [h0, parseLiteral_number_int h]

/-- Digit facts packaged out of `FlatProp.wfB`. -/
theorem FlatProp.wfB_int {fp : FlatProp} (h : fp.wfB) :
    goParseInt (String.mk fp.digits) = some (decNat fp.digits) := by
  simp only [FlatProp.wfB, Bool.and_eq_true, decide_eq_true_eq] at h
  have hgo := goParseInt_signed (g := []) (d := fp.digits) (Or.inl rfl) h.1.1
    (fun c hc => by simpa using List.all_eq_true.mp h.1.2 c (by simpa using hc))
    (by rw [if_neg (by simp)]; exact h.2)
  rw [if_neg (by simp)] at hgo
  simpa using hgo

/-- One whole property parse, at the token window the flat-object stream
produces: consumes key, colon and number, leaving the window on the following
two tokens. -/
theorem parsePropertyLoop_flat (fp : FlatProp) (hwf : fp.wfB) (prevI t1 t2 : Item)
    (rest3 : List Item) (m : Nat) :
    parsePropertyLoop (m + 4)
        ⟨⟨.number, fp.npos, String.mk fp.digits⟩ :: t1 :: t2 :: rest3, prevI,
          ⟨.string, fp.kpos, fp.kval⟩, ⟨.colon, fp.cpos, ":"⟩⟩ ⟨""⟩ none .propertyStart =
      some (.ok (fp.toProp,
        ⟨rest3, ⟨.number, fp.npos, String.mk fp.digits⟩, t1, t2⟩)) := by
  have h1 : parsePropertyLoop (m + 4)
      ⟨⟨.number, fp.npos, String.mk fp.digits⟩ :: t1 :: t2 :: rest3, prevI,
        ⟨.string, fp.kpos, fp.kval⟩, ⟨.colon, fp.cpos, ":"⟩⟩ ⟨""⟩ none .propertyStart =
      parsePropertyLoop (m + 3)
        ⟨t1 :: t2 :: rest3, ⟨.string, fp.kpos, fp.kval⟩, ⟨.colon, fp.cpos, ":"⟩,
          ⟨.number, fp.npos, String.mk fp.digits⟩⟩
        ⟨(goUnquote fp.kval).getD ""⟩ none .propertyKey := rfl
  have h2 : parsePropertyLoop (m + 3)
      ⟨t1 :: t2 :: rest3, ⟨.string, fp.kpos, fp.kval⟩, ⟨.colon, fp.cpos, ":"⟩,
        ⟨.number, fp.npos, String.mk fp.digits⟩⟩
      ⟨(goUnquote fp.kval).getD ""⟩ none .propertyKey =
      parsePropertyLoop (m + 2)
        ⟨t2 :: rest3, ⟨.colon, fp.cpos, ":"⟩, ⟨.number, fp.npos, String.mk fp.digits⟩, t1⟩
        ⟨(goUnquote fp.kval).getD ""⟩ none .propertyColon := rfl
  have h3 : parsePropertyLoop (m + 2)
      ⟨t2 :: rest3, ⟨.colon, fp.cpos, ":"⟩, ⟨.number, fp.npos, String.mk fp.digits⟩, t1⟩
      ⟨(goUnquote fp.kval).getD ""⟩ none .propertyColon =
      match parseValue (m + 1)
          ⟨t2 :: rest3, ⟨.colon, fp.cpos, ":"⟩, ⟨.number, fp.npos, String.mk fp.digits⟩, t1⟩ with
      | none => none
      | some (.error e) => some (.error e)
      | some (.ok (v, p2)) =>
        parsePropertyLoop (m + 1) p2 ⟨(goUnquote fp.kval).getD ""⟩ (some v)
          .propertyValue := rfl
  rw [h1, h2, h3, parseValue_number (FlatProp.wfB_int hwf)]
  have h4 : ∀ (p3 : Parser) (v : ValueN),
      parsePropertyLoop (m + 1) p3 ⟨(goUnquote fp.kval).getD ""⟩ (some v) .propertyValue =
        some (.ok (⟨⟨(goUnquote fp.kval).getD ""⟩, some v⟩, p3)) := by
    intro p3 v
    conv_lhs => rw [parsePropertyLoop]
    split
    · rfl
    · rfl
  exact h4 _ _

theorem propsToks_closers (fp2 : FlatProp) (rest2 : List FlatProp) (pEnd pEOF : Nat) :
    propsToks (fp2 :: rest2) ++ [⟨.rightBrace, pEnd, "\x7d"⟩, ⟨.eof, pEOF, ""⟩] =
      ⟨.string, fp2.kpos, fp2.kval⟩ :: ⟨.colon, fp2.cpos, ":"⟩ ::
        ⟨.number, fp2.npos, String.mk fp2.digits⟩ :: tailFor rest2 pEnd pEOF := by
  cases rest2
  · rfl
  · rfl

/-- The object loop consumes a nonempty flat pair list from the Open or Comma
state, appends the parsed properties in order, records `End` as the offset of
the token after the closing brace, and stops on EOF with the brace as the
previous token. -/
theorem objLoop_flat (pEnd pEOF startP : Nat) :
    ∀ (rest : List FlatProp) (fp : FlatProp), (∀ x ∈ fp :: rest, FlatProp.wfB x) →
      ∀ (m : Nat) (acc : List PropertyN) (prevI : Item) (st : State),
        st = .objectOpen ∨ st = .objectComma →
        parseObjectLoop (m + 2 * (fp :: rest).length + 3)
            ⟨⟨.number, fp.npos, String.mk fp.digits⟩ :: tailFor rest pEnd pEOF, prevI,
              ⟨.string, fp.kpos, fp.kval⟩, ⟨.colon, fp.cpos, ":"⟩⟩ acc startP st =
          some (.ok (⟨acc ++ (fp :: rest).map FlatProp.toProp, startP, pEOF⟩,
            ⟨[], ⟨.rightBrace, pEnd, "\x7d"⟩, ⟨.eof, pEOF, ""⟩, zeroItem⟩))
  | [], fp => by
    intro hwf m acc prevI st hst
    rw [show m + 2 * (List.length [fp]) + 3 = (m + 4) + 1 from by
      simp [List.length_cons]]
    have hprop := parsePropertyLoop_flat fp (hwf fp (by simp)) prevI
      ⟨.rightBrace, pEnd, "\x7d"⟩ ⟨.eof, pEOF, ""⟩ [] m
    rcases hst with rfl | rfl
    · have hA : parseObjectLoop ((m + 4) + 1)
          ⟨⟨.number, fp.npos, String.mk fp.digits⟩ :: tailFor [] pEnd pEOF, prevI,
            ⟨.string, fp.kpos, fp.kval⟩, ⟨.colon, fp.cpos, ":"⟩⟩ acc startP .objectOpen =
          match parsePropertyLoop (m + 4)
              ⟨⟨.number, fp.npos, String.mk fp.digits⟩ :: tailFor [] pEnd pEOF, prevI,
                ⟨.string, fp.kpos, fp.kval⟩, ⟨.colon, fp.cpos, ":"⟩⟩ ⟨""⟩ none
              .propertyStart with
          | none => none
          | some (.error e) => some (.error e)
          | some (.ok (prop, p2)) =>
            parseObjectLoop (m + 4) p2 (acc ++ [prop]) startP .objectProperty := rfl
      rw [hA]
      rw [show tailFor [] pEnd pEOF =
        [(⟨.rightBrace, pEnd, "\x7d"⟩ : Item), ⟨.eof, pEOF, ""⟩] from rfl]
      rw [hprop]
      have hB : parseObjectLoop (m + 4)
          ⟨[], ⟨.number, fp.npos, String.mk fp.digits⟩, ⟨.rightBrace, pEnd, "\x7d"⟩,
            ⟨.eof, pEOF, ""⟩⟩ (acc ++ [fp.toProp]) startP .objectProperty =
          some (.ok (⟨acc ++ [fp.toProp], startP, pEOF⟩,
            ⟨[], ⟨.rightBrace, pEnd, "\x7d"⟩, ⟨.eof, pEOF, ""⟩, zeroItem⟩)) := by
        rw [show m + 4 = (m + 3) + 1 from rfl]
        rfl
      exact hB
    · have hA : parseObjectLoop ((m + 4) + 1)
          ⟨⟨.number, fp.npos, String.mk fp.digits⟩ :: tailFor [] pEnd pEOF, prevI,
            ⟨.string, fp.kpos, fp.kval⟩, ⟨.colon, fp.cpos, ":"⟩⟩ acc startP .objectComma =
          match parsePropertyLoop (m + 4)
              ⟨⟨.number, fp.npos, String.mk fp.digits⟩ :: tailFor [] pEnd pEOF, prevI,
                ⟨.string, fp.kpos, fp.kval⟩, ⟨.colon, fp.cpos, ":"⟩⟩ ⟨""⟩ none
              .propertyStart with
          | none => none
          | some (.error e) => some (.error e)
          | some (.ok (prop, p2)) =>
            parseObjectLoop (m + 4) p2 (acc ++ [prop]) startP .objectProperty := rfl
      rw [hA]
      rw [show tailFor [] pEnd pEOF =
        [(⟨.rightBrace, pEnd, "\x7d"⟩ : Item), ⟨.eof, pEOF, ""⟩] from rfl]
      rw [hprop]
      have hB : parseObjectLoop (m + 4)
          ⟨[], ⟨.number, fp.npos, String.mk fp.digits⟩, ⟨.rightBrace, pEnd, "\x7d"⟩,
            ⟨.eof, pEOF, ""⟩⟩ (acc ++ [fp.toProp]) startP .objectProperty =
          some (.ok (⟨acc ++ [fp.toProp], startP, pEOF⟩,
            ⟨[], ⟨.rightBrace, pEnd, "\x7d"⟩, ⟨.eof, pEOF, ""⟩, zeroItem⟩)) := by
        rw [show m + 4 = (m + 3) + 1 from rfl]
        rfl
      exact hB
  | fp2 :: rest2, fp => by
    intro hwf m acc prevI st hst
    rw [show m + 2 * (List.length (fp :: fp2 :: rest2)) + 3 =
        ((m + 2 * rest2.length + 2) + 4) + 1 from by
      simp [List.length_cons]
      omega]
    have htail : tailFor (fp2 :: rest2) pEnd pEOF =
        ⟨.comma, 0, ","⟩ :: ⟨.string, fp2.kpos, fp2.kval⟩ :: ⟨.colon, fp2.cpos, ":"⟩ ::
          ⟨.number, fp2.npos, String.mk fp2.digits⟩ :: tailFor rest2 pEnd pEOF := by
      show (⟨.comma, 0, ","⟩ : Item) ::
          (propsToks (fp2 :: rest2) ++ [⟨.rightBrace, pEnd, "\x7d"⟩, ⟨.eof, pEOF, ""⟩]) = _
      rw [propsToks_closers]
    have hprop := parsePropertyLoop_flat fp (hwf fp (by simp)) prevI
      ⟨.comma, 0, ","⟩ ⟨.string, fp2.kpos, fp2.kval⟩
      (⟨.colon, fp2.cpos, ":"⟩ ::
        ⟨.number, fp2.npos, String.mk fp2.digits⟩ :: tailFor rest2 pEnd pEOF)
      (m + 2 * rest2.length + 2)
    have hrec := objLoop_flat pEnd pEOF startP rest2 fp2
      (fun x hx => hwf x (by simp at hx ⊢; tauto)) m (acc ++ [fp.toProp])
      ⟨.comma, 0, ","⟩ .objectComma (Or.inr rfl)
    rcases hst with rfl | rfl
    · have hA : parseObjectLoop (((m + 2 * rest2.length + 2) + 4) + 1)
          ⟨⟨.number, fp.npos, String.mk fp.digits⟩ :: tailFor (fp2 :: rest2) pEnd pEOF,
            prevI, ⟨.string, fp.kpos, fp.kval⟩, ⟨.colon, fp.cpos, ":"⟩⟩ acc startP
          .objectOpen =
          match parsePropertyLoop ((m + 2 * rest2.length + 2) + 4)
              ⟨⟨.number, fp.npos, String.mk fp.digits⟩ :: tailFor (fp2 :: rest2) pEnd pEOF,
                prevI, ⟨.string, fp.kpos, fp.kval⟩, ⟨.colon, fp.cpos, ":"⟩⟩ ⟨""⟩ none
              .propertyStart with
          | none => none
          | some (.error e) => some (.error e)
          | some (.ok (prop, p2)) =>
            parseObjectLoop ((m + 2 * rest2.length + 2) + 4) p2 (acc ++ [prop]) startP
              .objectProperty := rfl
      rw [hA, htail, hprop]
      show parseObjectLoop ((m + 2 * rest2.length + 2) + 4)
          ⟨⟨.colon, fp2.cpos, ":"⟩ ::
              ⟨.number, fp2.npos, String.mk fp2.digits⟩ :: tailFor rest2 pEnd pEOF,
            ⟨.number, fp.npos, String.mk fp.digits⟩, ⟨.comma, 0, ","⟩,
            ⟨.string, fp2.kpos, fp2.kval⟩⟩ (acc ++ [fp.toProp]) startP .objectProperty = _
      have hB : parseObjectLoop ((m + 2 * rest2.length + 2) + 4)
          ⟨⟨.colon, fp2.cpos, ":"⟩ ::
              ⟨.number, fp2.npos, String.mk fp2.digits⟩ :: tailFor rest2 pEnd pEOF,
            ⟨.number, fp.npos, String.mk fp.digits⟩, ⟨.comma, 0, ","⟩,
            ⟨.string, fp2.kpos, fp2.kval⟩⟩ (acc ++ [fp.toProp]) startP .objectProperty =
          parseObjectLoop ((m + 2 * rest2.length + 2) + 3)
            ⟨⟨.number, fp2.npos, String.mk fp2.digits⟩ :: tailFor rest2 pEnd pEOF,
              ⟨.comma, 0, ","⟩, ⟨.string, fp2.kpos, fp2.kval⟩, ⟨.colon, fp2.cpos, ":"⟩⟩
            (acc ++ [fp.toProp]) startP .objectComma := rfl
      rw [hB]
      rw [show (m + 2 * rest2.length + 2) + 3 = m + 2 * (List.length (fp2 :: rest2)) + 3
        from by simp [List.length_cons]; omega]
      rw [hrec]
      simp [List.append_assoc]
    · have hA : parseObjectLoop (((m + 2 * rest2.length + 2) + 4) + 1)
          ⟨⟨.number, fp.npos, String.mk fp.digits⟩ :: tailFor (fp2 :: rest2) pEnd pEOF,
            prevI, ⟨.string, fp.kpos, fp.kval⟩, ⟨.colon, fp.cpos, ":"⟩⟩ acc startP
          .objectComma =
          match parsePropertyLoop ((m + 2 * rest2.length + 2) + 4)
              ⟨⟨.number, fp.npos, String.mk fp.digits⟩ :: tailFor (fp2 :: rest2) pEnd pEOF,
                prevI, ⟨.string, fp.kpos, fp.kval⟩, ⟨.colon, fp.cpos, ":"⟩⟩ ⟨""⟩ none
              .propertyStart with
          | none => none
          | some (.error e) => some (.error e)
          | some (.ok (prop, p2)) =>
            parseObjectLoop ((m + 2 * rest2.length + 2) + 4) p2 (acc ++ [prop]) startP
              .objectProperty := rfl
      rw [hA, htail, hprop]
      show parseObjectLoop ((m + 2 * rest2.length + 2) + 4)
          ⟨⟨.colon, fp2.cpos, ":"⟩ ::
              ⟨.number, fp2.npos, String.mk fp2.digits⟩ :: tailFor rest2 pEnd pEOF,
            ⟨.number, fp.npos, String.mk fp.digits⟩, ⟨.comma, 0, ","⟩,
            ⟨.string, fp2.kpos, fp2.kval⟩⟩ (acc ++ [fp.toProp]) startP .objectProperty = _
      have hB : parseObjectLoop ((m + 2 * rest2.length + 2) + 4)
          ⟨⟨.colon, fp2.cpos, ":"⟩ ::
              ⟨.number, fp2.npos, String.mk fp2.digits⟩ :: tailFor rest2 pEnd pEOF,
            ⟨.number, fp.npos, String.mk fp.digits⟩, ⟨.comma, 0, ","⟩,
            ⟨.string, fp2.kpos, fp2.kval⟩⟩ (acc ++ [fp.toProp]) startP .objectProperty =
          parseObjectLoop ((m + 2 * rest2.length + 2) + 3)
            ⟨⟨.number, fp2.npos, String.mk fp2.digits⟩ :: tailFor rest2 pEnd pEOF,
              ⟨.comma, 0, ","⟩, ⟨.string, fp2.kpos, fp2.kval⟩, ⟨.colon, fp2.cpos, ":"⟩⟩
            (acc ++ [fp.toProp]) startP .objectComma := rfl
      rw [hB]
      rw [show (m + 2 * rest2.length + 2) + 3 = m + 2 * (List.length (fp2 :: rest2)) + 3
        from by simp [List.length_cons]; omega]
      rw [hrec]
      simp [List.append_assoc]

/-- Full `Parse` of a flat object `{ k1 : n1 , ... , kj : nj }` (at least one
pair): the root is an Object whose children are the pairs in textual order,
`Start` is the offset of the `{` token and `End` the offset of the token
following the `}` (the EOF offset), and the run ends with EOF current and the
`}` previous. -/
theorem flatObj_Parse (p0 pEnd pEOF : Nat) (fp : FlatProp) (rest : List FlatProp)
    (hwf : ∀ x ∈ fp :: rest, FlatProp.wfB x) (m : Nat) :
    Parse (m + 2 * (fp :: rest).length + 5)
        (newParser (flatObjToks p0 (fp :: rest) pEnd pEOF)) =
      some ((some ⟨some .object,
          some ⟨.obj ⟨(fp :: rest).map FlatProp.toProp, p0, pEOF⟩⟩⟩, none),
        ⟨[], ⟨.rightBrace, pEnd, "\x7d"⟩, ⟨.eof, pEOF, ""⟩, zeroItem⟩) := by
  have hitems : flatObjToks p0 (fp :: rest) pEnd pEOF =
      ⟨.leftBrace, p0, "\x7b"⟩ :: ⟨.string, fp.kpos, fp.kval⟩ :: ⟨.colon, fp.cpos, ":"⟩ ::
        ⟨.number, fp.npos, String.mk fp.digits⟩ :: tailFor rest pEnd pEOF := by
    show (⟨.leftBrace, p0, "\x7b"⟩ : Item) ::
        (propsToks (fp :: rest) ++ [⟨.rightBrace, pEnd, "\x7d"⟩, ⟨.eof, pEOF, ""⟩]) = _
    rw [propsToks_closers]
  rw [hitems]
  rw [show m + 2 * (List.length (fp :: rest)) + 5 =
    ((m + 2 * (List.length (fp :: rest)) + 3) + 1) + 1 from by omega]
  have hnew : newParser
      (⟨.leftBrace, p0, "\x7b"⟩ :: ⟨.string, fp.kpos, fp.kval⟩ :: ⟨.colon, fp.cpos, ":"⟩ ::
        ⟨.number, fp.npos, String.mk fp.digits⟩ :: tailFor rest pEnd pEOF) =
      ⟨⟨.colon, fp.cpos, ":"⟩ :: ⟨.number, fp.npos, String.mk fp.digits⟩ ::
          tailFor rest pEnd pEOF,
        zeroItem, ⟨.leftBrace, p0, "\x7b"⟩, ⟨.string, fp.kpos, fp.kval⟩⟩ := rfl
  rw [hnew]
  have hv : parseValue (((m + 2 * (List.length (fp :: rest)) + 3) + 1) + 1)
      ⟨⟨.colon, fp.cpos, ":"⟩ :: ⟨.number, fp.npos, String.mk fp.digits⟩ ::
          tailFor rest pEnd pEOF,
        zeroItem, ⟨.leftBrace, p0, "\x7b"⟩, ⟨.string, fp.kpos, fp.kval⟩⟩ =
      some (.ok (⟨.obj ⟨(fp :: rest).map FlatProp.toProp, p0, pEOF⟩⟩,
        ⟨[], ⟨.rightBrace, pEnd, "\x7d"⟩, ⟨.eof, pEOF, ""⟩, zeroItem⟩)) := by
    have h1 : parseValue (((m + 2 * (List.length (fp :: rest)) + 3) + 1) + 1)
        ⟨⟨.colon, fp.cpos, ":"⟩ :: ⟨.number, fp.npos, String.mk fp.digits⟩ ::
            tailFor rest pEnd pEOF,
          zeroItem, ⟨.leftBrace, p0, "\x7b"⟩, ⟨.string, fp.kpos, fp.kval⟩⟩ =
        match parseObjectLoop ((m + 2 * (List.length (fp :: rest)) + 3) + 1)
            ⟨⟨.colon, fp.cpos, ":"⟩ :: ⟨.number, fp.npos, String.mk fp.digits⟩ ::
                tailFor rest pEnd pEOF,
              zeroItem, ⟨.leftBrace, p0, "\x7b"⟩, ⟨.string, fp.kpos, fp.kval⟩⟩ [] 0
            .objectStart with
        | none => none
        | some (.error e) => some (.error e)
        | some (.ok (o, p2)) => some (.ok (⟨.obj o⟩, p2)) := rfl
    have h2 : parseObjectLoop ((m + 2 * (List.length (fp :: rest)) + 3) + 1)
        ⟨⟨.colon, fp.cpos, ":"⟩ :: ⟨.number, fp.npos, String.mk fp.digits⟩ ::
            tailFor rest pEnd pEOF,
          zeroItem, ⟨.leftBrace, p0, "\x7b"⟩, ⟨.string, fp.kpos, fp.kval⟩⟩ [] 0
          .objectStart =
        parseObjectLoop (m + 2 * (List.length (fp :: rest)) + 3)
          ⟨⟨.number, fp.npos, String.mk fp.digits⟩ :: tailFor rest pEnd pEOF,
            ⟨.leftBrace, p0, "\x7b"⟩, ⟨.string, fp.kpos, fp.kval⟩, ⟨.colon, fp.cpos, ":"⟩⟩
          [] p0 .objectOpen := rfl
    rw [h1, h2, objLoop_flat pEnd pEOF p0 rest fp hwf m [] ⟨.leftBrace, p0, "\x7b"⟩
      .objectOpen (Or.inl rfl)]
    rfl
  have hp : Parse (((m + 2 * (List.length (fp :: rest)) + 3) + 1) + 1)
      ⟨⟨.colon, fp.cpos, ":"⟩ :: ⟨.number, fp.npos, String.mk fp.digits⟩ ::
          tailFor rest pEnd pEOF,
        zeroItem, ⟨.leftBrace, p0, "\x7b"⟩, ⟨.string, fp.kpos, fp.kval⟩⟩ =
      match parseValue (((m + 2 * (List.length (fp :: rest)) + 3) + 1) + 1)
          ⟨⟨.colon, fp.cpos, ":"⟩ :: ⟨.number, fp.npos, String.mk fp.digits⟩ ::
              tailFor rest pEnd pEOF,
            zeroItem, ⟨.leftBrace, p0, "\x7b"⟩, ⟨.string, fp.kpos, fp.kval⟩⟩ with
      | none => none
      | some (.error e) =>
        some ((none, some e),
          ⟨⟨.colon, fp.cpos, ":"⟩ :: ⟨.number, fp.npos, String.mk fp.digits⟩ ::
              tailFor rest pEnd pEOF,
            zeroItem, ⟨.leftBrace, p0, "\x7b"⟩, ⟨.string, fp.kpos, fp.kval⟩⟩)
      | some (.ok (v, p2)) =>
        match validateClosingSyntax p2 (some .object) with
        | some err => some ((none, some err), p2)
        | none => some ((some ⟨some .object, some v⟩, none), p2) := rfl
  rw [hp, hv]
  rfl

theorem itemsToks_closers (pEnd pEOF : Nat) : ∀ (it : FlatItem) (rest : List FlatItem),
    itemsToks (it :: rest) ++ [⟨.rightBracket, pEnd, "]"⟩, ⟨.eof, pEOF, ""⟩] =
      ⟨.number, it.npos, String.mk it.digits⟩ :: arrPeek rest pEnd ::
        arrToks rest pEnd pEOF
  | it, [] => rfl
  | it, it2 :: rest2 => by
    show (⟨.number, it.npos, String.mk it.digits⟩ : Item) :: ⟨.comma, 0, ","⟩ ::
        (itemsToks (it2 :: rest2) ++ [⟨.rightBracket, pEnd, "]"⟩, ⟨.eof, pEOF, ""⟩]) = _
    rw [itemsToks_closers pEnd pEOF it2 rest2]
    rfl

theorem FlatItem.wfB_toInt {it : FlatItem} (h : it.wfB) :
    goParseInt (String.mk it.digits) = some (decNat it.digits) := by
  simp only [FlatItem.wfB, Bool.and_eq_true, decide_eq_true_eq] at h
  have hgo := goParseInt_signed (g := []) (d := it.digits) (Or.inl rfl) h.1.1
    (fun c hc => by simpa using List.all_eq_true.mp h.1.2 c (by simpa using hc))
    (by rw [if_neg (by simp)]; exact h.2)
  rw [if_neg (by simp)] at hgo
  simpa using hgo

theorem parseArrayItem_number {m : Nat} {t : List Item} {q w : Item} {n : Nat}
    {s : String} {i : Int} (h : goParseInt s = some i) :
    parseArrayItem (m + 1) ⟨t, q, ⟨.number, n, s⟩, w⟩ =
      some (.ok (⟨.lit ⟨.number, .int i⟩⟩,
        (⟨t, q, ⟨.number, n, s⟩, w⟩ : Parser).next)) := by
  have h0 : parseArrayItem (m + 1) ⟨t, q, ⟨.number, n, s⟩, w⟩ =
      match parseLiteral ⟨t, q, ⟨.number, n, s⟩, w⟩ with
      | .error e => some (.error e)
      | .ok (l, p2) => some (.ok (⟨.lit l⟩, p2)) := rfl
  rw [h0, parseLiteral_number_int h]

/-- The array loop consumes a nonempty flat element list from the Open or
Comma state, appends the items in order, records `End` as the closing
bracket's own offset, and advances past the closer. -/
theorem arrLoop_flat (pEnd pEOF startP : Nat) :
    ∀ (rest : List FlatItem) (it : FlatItem), (∀ x ∈ it :: rest, FlatItem.wfB x) →
      ∀ (m : Nat) (acc : List ArrayItemN) (prevI : Item) (st : State),
        st = .arrayOpen ∨ st = .arrayComma →
        parseArrayLoop (m + 2 * (it :: rest).length + 2)
            ⟨arrToks rest pEnd pEOF, prevI, ⟨.number, it.npos, String.mk it.digits⟩,
              arrPeek rest pEnd⟩ acc startP st =
          some (.ok (⟨acc ++ (it :: rest).map FlatItem.toItem, startP, pEnd⟩,
            ⟨[], ⟨.rightBracket, pEnd, "]"⟩, ⟨.eof, pEOF, ""⟩, zeroItem⟩))
  | [], it => by
    intro hwf m acc prevI st hst
    rw [show m + 2 * (List.length [it]) + 2 = ((m + 2) + 1) + 1 from by
      simp [List.length_cons]]
    have hitem := parseArrayItem_number (m := (m + 2))
      (t := arrToks [] pEnd pEOF) (q := prevI)
      (w := arrPeek [] pEnd) (n := it.npos) (FlatItem.wfB_toInt (hwf it (by simp)))
    rcases hst with rfl | rfl
    · have hA : parseArrayLoop (((m + 2) + 1) + 1)
          ⟨arrToks [] pEnd pEOF, prevI, ⟨.number, it.npos, String.mk it.digits⟩,
            arrPeek [] pEnd⟩ acc startP .arrayOpen =
          match parseArrayItem ((m + 2) + 1)
              ⟨arrToks [] pEnd pEOF, prevI, ⟨.number, it.npos, String.mk it.digits⟩,
                arrPeek [] pEnd⟩ with
          | none => none
          | some (.error e) => some (.error e)
          | some (.ok (item, p2)) =>
            parseArrayLoop ((m + 2) + 1)
              (if p2.isPeekToken .rightBracket then p2.next else p2)
              (acc ++ [item]) startP .arrayValue := rfl
      rw [hA, hitem]
      show parseArrayLoop ((m + 2) + 1)
          ⟨[], ⟨.number, it.npos, String.mk it.digits⟩, ⟨.rightBracket, pEnd, "]"⟩,
            ⟨.eof, pEOF, ""⟩⟩ (acc ++ [it.toItem]) startP .arrayValue = _
      rfl
    · have hA : parseArrayLoop (((m + 2) + 1) + 1)
          ⟨arrToks [] pEnd pEOF, prevI, ⟨.number, it.npos, String.mk it.digits⟩,
            arrPeek [] pEnd⟩ acc startP .arrayComma =
          match parseArrayItem ((m + 2) + 1)
              ⟨arrToks [] pEnd pEOF, prevI, ⟨.number, it.npos, String.mk it.digits⟩,
                arrPeek [] pEnd⟩ with
          | none => none
          | some (.error e) => some (.error e)
          | some (.ok (item, p2)) =>
            parseArrayLoop ((m + 2) + 1) p2 (acc ++ [item]) startP .arrayValue := rfl
      rw [hA, hitem]
      show parseArrayLoop ((m + 2) + 1)
          ⟨[], ⟨.number, it.npos, String.mk it.digits⟩, ⟨.rightBracket, pEnd, "]"⟩,
            ⟨.eof, pEOF, ""⟩⟩ (acc ++ [it.toItem]) startP .arrayValue = _
      rfl
  | it2 :: rest2, it => by
    intro hwf m acc prevI st hst
    rw [show m + 2 * (List.length (it :: it2 :: rest2)) + 2 =
      (((m + 2 * (List.length (it2 :: rest2)) + 2) + 1) + 1) from by
      simp [List.length_cons]; omega]
    have hitem := parseArrayItem_number (m := ((m + 2 * (List.length (it2 :: rest2)) + 2)))
      (t := arrToks (it2 :: rest2) pEnd pEOF) (q := prevI)
      (w := arrPeek (it2 :: rest2) pEnd) (n := it.npos)
      (FlatItem.wfB_toInt (hwf it (by simp)))
    have hrec := arrLoop_flat pEnd pEOF startP rest2 it2
      (fun x hx => hwf x (by simp at hx ⊢; tauto)) m (acc ++ [it.toItem])
      ⟨.comma, 0, ","⟩ .arrayComma (Or.inr rfl)
    rcases hst with rfl | rfl
    · have hA : parseArrayLoop (((m + 2 * (List.length (it2 :: rest2)) + 2) + 1) + 1)
          ⟨arrToks (it2 :: rest2) pEnd pEOF, prevI,
            ⟨.number, it.npos, String.mk it.digits⟩, arrPeek (it2 :: rest2) pEnd⟩
          acc startP .arrayOpen =
          match parseArrayItem ((m + 2 * (List.length (it2 :: rest2)) + 2) + 1)
              ⟨arrToks (it2 :: rest2) pEnd pEOF, prevI,
                ⟨.number, it.npos, String.mk it.digits⟩, arrPeek (it2 :: rest2) pEnd⟩ with
          | none => none
          | some (.error e) => some (.error e)
          | some (.ok (item, p2)) =>
            parseArrayLoop ((m + 2 * (List.length (it2 :: rest2)) + 2) + 1)
              (if p2.isPeekToken .rightBracket then p2.next else p2)
              (acc ++ [item]) startP .arrayValue := rfl
      rw [hA, hitem]
      show parseArrayLoop ((m + 2 * (List.length (it2 :: rest2)) + 2) + 1)
          ⟨arrPeek rest2 pEnd :: arrToks rest2 pEnd pEOF,
            ⟨.number, it.npos, String.mk it.digits⟩, ⟨.comma, 0, ","⟩,
            ⟨.number, it2.npos, String.mk it2.digits⟩⟩
          (acc ++ [it.toItem]) startP .arrayValue = _
      have hB : parseArrayLoop ((m + 2 * (List.length (it2 :: rest2)) + 2) + 1)
          ⟨arrPeek rest2 pEnd :: arrToks rest2 pEnd pEOF,
            ⟨.number, it.npos, String.mk it.digits⟩, ⟨.comma, 0, ","⟩,
            ⟨.number, it2.npos, String.mk it2.digits⟩⟩
          (acc ++ [it.toItem]) startP .arrayValue =
          parseArrayLoop (m + 2 * (List.length (it2 :: rest2)) + 2)
            ⟨arrToks rest2 pEnd pEOF, ⟨.comma, 0, ","⟩,
              ⟨.number, it2.npos, String.mk it2.digits⟩, arrPeek rest2 pEnd⟩
            (acc ++ [it.toItem]) startP .arrayComma := rfl
      rw [hB, hrec]
      simp [List.append_assoc]
    · have hA : parseArrayLoop (((m + 2 * (List.length (it2 :: rest2)) + 2) + 1) + 1)
          ⟨arrToks (it2 :: rest2) pEnd pEOF, prevI,
            ⟨.number, it.npos, String.mk it.digits⟩, arrPeek (it2 :: rest2) pEnd⟩
          acc startP .arrayComma =
          match parseArrayItem ((m + 2 * (List.length (it2 :: rest2)) + 2) + 1)
              ⟨arrToks (it2 :: rest2) pEnd pEOF, prevI,
                ⟨.number, it.npos, String.mk it.digits⟩, arrPeek (it2 :: rest2) pEnd⟩ with
          | none => none
          | some (.error e) => some (.error e)
          | some (.ok (item, p2)) =>
            parseArrayLoop ((m + 2 * (List.length (it2 :: rest2)) + 2) + 1) p2
              (acc ++ [item]) startP .arrayValue := rfl
      rw [hA, hitem]
      show parseArrayLoop ((m + 2 * (List.length (it2 :: rest2)) + 2) + 1)
          ⟨arrPeek rest2 pEnd :: arrToks rest2 pEnd pEOF,
            ⟨.number, it.npos, String.mk it.digits⟩, ⟨.comma, 0, ","⟩,
            ⟨.number, it2.npos, String.mk it2.digits⟩⟩
          (acc ++ [it.toItem]) startP .arrayValue = _
      have hB : parseArrayLoop ((m + 2 * (List.length (it2 :: rest2)) + 2) + 1)
          ⟨arrPeek rest2 pEnd :: arrToks rest2 pEnd pEOF,
            ⟨.number, it.npos, String.mk it.digits⟩, ⟨.comma, 0, ","⟩,
            ⟨.number, it2.npos, String.mk it2.digits⟩⟩
          (acc ++ [it.toItem]) startP .arrayValue =
          parseArrayLoop (m + 2 * (List.length (it2 :: rest2)) + 2)
            ⟨arrToks rest2 pEnd pEOF, ⟨.comma, 0, ","⟩,
              ⟨.number, it2.npos, String.mk it2.digits⟩, arrPeek rest2 pEnd⟩
            (acc ++ [it.toItem]) startP .arrayComma := rfl
      rw [hB, hrec]
      simp [List.append_assoc]

/-- Full `Parse` of a flat array `[ n1 , ... , nk ]` (at least one element):
the root is an Array whose children are the elements in textual order,
`Start` is the offset of the `[` token and `End` the offset of the `]` token
itself, and the run ends with EOF current and the `]` previous. -/
theorem flatArr_Parse (p0 pEnd pEOF : Nat) (it : FlatItem) (rest : List FlatItem)
    (hwf : ∀ x ∈ it :: rest, FlatItem.wfB x) (m : Nat) :
    Parse (m + 2 * (it :: rest).length + 4)
        (newParser (flatArrToks p0 (it :: rest) pEnd pEOF)) =
      some ((some ⟨some .array,
          some ⟨.arr ⟨(it :: rest).map FlatItem.toItem, p0, pEnd⟩⟩⟩, none),
        ⟨[], ⟨.rightBracket, pEnd, "]"⟩, ⟨.eof, pEOF, ""⟩, zeroItem⟩) := by
  have hitems : flatArrToks p0 (it :: rest) pEnd pEOF =
      ⟨.leftBracket, p0, "["⟩ :: ⟨.number, it.npos, String.mk it.digits⟩ ::
        arrPeek rest pEnd :: arrToks rest pEnd pEOF := by
    show (⟨.leftBracket, p0, "["⟩ : Item) ::
        (itemsToks (it :: rest) ++ [⟨.rightBracket, pEnd, "]"⟩, ⟨.eof, pEOF, ""⟩]) = _
    rw [itemsToks_closers]
  rw [hitems]
  rw [show m + 2 * (List.length (it :: rest)) + 4 =
    ((m + 2 * (List.length (it :: rest)) + 2) + 1) + 1 from by omega]
  have hnew : newParser
      (⟨.leftBracket, p0, "["⟩ :: ⟨.number, it.npos, String.mk it.digits⟩ ::
        arrPeek rest pEnd :: arrToks rest pEnd pEOF) =
      ⟨arrPeek rest pEnd :: arrToks rest pEnd pEOF,
        zeroItem, ⟨.leftBracket, p0, "["⟩, ⟨.number, it.npos, String.mk it.digits⟩⟩ := rfl
  rw [hnew]
  have hv : parseValue (((m + 2 * (List.length (it :: rest)) + 2) + 1) + 1)
      ⟨arrPeek rest pEnd :: arrToks rest pEnd pEOF,
        zeroItem, ⟨.leftBracket, p0, "["⟩, ⟨.number, it.npos, String.mk it.digits⟩⟩ =
      some (.ok (⟨.arr ⟨(it :: rest).map FlatItem.toItem, p0, pEnd⟩⟩,
        ⟨[], ⟨.rightBracket, pEnd, "]"⟩, ⟨.eof, pEOF, ""⟩, zeroItem⟩)) := by
    have h1 : parseValue (((m + 2 * (List.length (it :: rest)) + 2) + 1) + 1)
        ⟨arrPeek rest pEnd :: arrToks rest pEnd pEOF,
          zeroItem, ⟨.leftBracket, p0, "["⟩, ⟨.number, it.npos, String.mk it.digits⟩⟩ =
        match parseArrayLoop ((m + 2 * (List.length (it :: rest)) + 2) + 1)
            ⟨arrPeek rest pEnd :: arrToks rest pEnd pEOF,
              zeroItem, ⟨.leftBracket, p0, "["⟩, ⟨.number, it.npos, String.mk it.digits⟩⟩
            [] 0 .arrayStart with
        | none => none
        | some (.error e) => some (.error e)
        | some (.ok (a, p2)) => some (.ok (⟨.arr a⟩, p2)) := rfl
    have h2 : parseArrayLoop ((m + 2 * (List.length (it :: rest)) + 2) + 1)
        ⟨arrPeek rest pEnd :: arrToks rest pEnd pEOF,
          zeroItem, ⟨.leftBracket, p0, "["⟩, ⟨.number, it.npos, String.mk it.digits⟩⟩
        [] 0 .arrayStart =
        parseArrayLoop (m + 2 * (List.length (it :: rest)) + 2)
          ⟨arrToks rest pEnd pEOF, ⟨.leftBracket, p0, "["⟩,
            ⟨.number, it.npos, String.mk it.digits⟩, arrPeek rest pEnd⟩
          [] p0 .arrayOpen := rfl
    rw [h1, h2, arrLoop_flat pEnd pEOF p0 rest it hwf m [] ⟨.leftBracket, p0, "["⟩
      .arrayOpen (Or.inl rfl)]
    rfl
  have hp : Parse (((m + 2 * (List.length (it :: rest)) + 2) + 1) + 1)
      ⟨arrPeek rest pEnd :: arrToks rest pEnd pEOF,
        zeroItem, ⟨.leftBracket, p0, "["⟩, ⟨.number, it.npos, String.mk it.digits⟩⟩ =
      match parseValue (((m + 2 * (List.length (it :: rest)) + 2) + 1) + 1)
          ⟨arrPeek rest pEnd :: arrToks rest pEnd pEOF,
            zeroItem, ⟨.leftBracket, p0, "["⟩, ⟨.number, it.npos, String.mk it.digits⟩⟩ with
      | none => none
      | some (.error e) =>
        some ((none, some e),
          ⟨arrPeek rest pEnd :: arrToks rest pEnd pEOF,
            zeroItem, ⟨.leftBracket, p0, "["⟩, ⟨.number, it.npos, String.mk it.digits⟩⟩)
      | some (.ok (v, p2)) =>
        match validateClosingSyntax p2 (some .array) with
        | some err => some ((none, some err), p2)
        | none => some ((some ⟨some .array, some v⟩, none), p2) := rfl
  rw [hp, hv]
  rfl

/-- C4 (counterexample): for `{"a": 1}` the closing `}` sits at byte offset 7
(the last byte of the 8-byte input), yet the root object's recorded span is
`(0, 8)`: `End` points one past the `}`, not at it, because the Property
state calls `p.next()` before reading `p.current.Pos`. -/
theorem c4_counterexample :
    rootObjSpan (parseJSON 400 "\x7b\"a\": 1\x7d") = some (0, 8) ∧
      ("\x7b\"a\": 1\x7d").toList.getD 7 ' ' = '}' ∧ ("\x7b\"a\": 1\x7d").toList.length = 8 := by
  refine ⟨?_, by decide, by decide⟩
  decide

/-- C4 (amended): on a successfully parsed flat object the recorded `Start` is
the `{` token's offset but `End` is the offset of the token following the `}`
(the Property state advances before reading the position); on a flat array
`Start` is the `[` offset and `End` is the `]` token's own offset. -/
theorem c4_amended (p0 pEnd pEOF q0 qEnd qEOF m : Nat) (fp : FlatProp)
    (rest : List FlatProp) (it : FlatItem) (restA : List FlatItem)
    (hO : ∀ x ∈ fp :: rest, FlatProp.wfB x)
    (hA : ∀ x ∈ it :: restA, FlatItem.wfB x) :
    Parse (m + 2 * (fp :: rest).length + 5)
        (newParser (flatObjToks p0 (fp :: rest) pEnd pEOF)) =
      some ((some ⟨some .object,
          some ⟨.obj ⟨(fp :: rest).map FlatProp.toProp, p0, pEOF⟩⟩⟩, none),
        ⟨[], ⟨.rightBrace, pEnd, "\x7d"⟩, ⟨.eof, pEOF, ""⟩, zeroItem⟩) ∧
    Parse (m + 2 * (it :: restA).length + 4)
        (newParser (flatArrToks q0 (it :: restA) qEnd qEOF)) =
      some ((some ⟨some .array,
          some ⟨.arr ⟨(it :: restA).map FlatItem.toItem, q0, qEnd⟩⟩⟩, none),
        ⟨[], ⟨.rightBracket, qEnd, "]"⟩, ⟨.eof, qEOF, ""⟩, zeroItem⟩) :=
  ⟨flatObj_Parse p0 pEnd pEOF fp rest hO m,
   flatArr_Parse q0 qEnd qEOF it restA hA m⟩

theorem c4_amended_witness :
    ((∀ x ∈ [(⟨"\"a\"", 1, 4, ['1'], 6⟩ : FlatProp)], FlatProp.wfB x) ∧
      (∀ x ∈ [(⟨['1'], 1⟩ : FlatItem)], FlatItem.wfB x)) ∧
    (Parse (0 + 2 * ([(⟨"\"a\"", 1, 4, ['1'], 6⟩ : FlatProp)]).length + 5)
        (newParser (flatObjToks 0 [⟨"\"a\"", 1, 4, ['1'], 6⟩] 7 8)) =
      some ((some ⟨some .object,
          some ⟨.obj ⟨[(⟨"\"a\"", 1, 4, ['1'], 6⟩ : FlatProp)].map FlatProp.toProp,
            0, 8⟩⟩⟩, none),
        ⟨[], ⟨.rightBrace, 7, "\x7d"⟩, ⟨.eof, 8, ""⟩, zeroItem⟩) ∧
    Parse (0 + 2 * ([(⟨['1'], 1⟩ : FlatItem)]).length + 4)
        (newParser (flatArrToks 0 [⟨['1'], 1⟩] 2 3)) =
      some ((some ⟨some .array,
          some ⟨.arr ⟨[(⟨['1'], 1⟩ : FlatItem)].map FlatItem.toItem, 0, 2⟩⟩⟩, none),
        ⟨[], ⟨.rightBracket, 2, "]"⟩, ⟨.eof, 3, ""⟩, zeroItem⟩)) :=
  ⟨⟨by decide, by decide⟩,
    c4_amended 0 7 8 0 2 3 0 ⟨"\"a\"", 1, 4, ['1'], 6⟩ [] ⟨['1'], 1⟩ []
      (by decide) (by decide)⟩

/-- C7: a successfully parsed flat object's `Children` list is exactly the
image of the written key-value pairs in textual order — one property per pair,
appended left to right, with nothing merged: the statement holds for any flat
pair list, including ones where two pairs carry the same key. -/
theorem c7_children_in_textual_order (p0 pEnd pEOF m : Nat) (fp : FlatProp)
    (rest : List FlatProp) (hwf : ∀ x ∈ fp :: rest, FlatProp.wfB x) :
    Parse (m + 2 * (fp :: rest).length + 5)
        (newParser (flatObjToks p0 (fp :: rest) pEnd pEOF)) =
      some ((some ⟨some .object,
          some ⟨.obj ⟨(fp :: rest).map FlatProp.toProp, p0, pEOF⟩⟩⟩, none),
        ⟨[], ⟨.rightBrace, pEnd, "\x7d"⟩, ⟨.eof, pEOF, ""⟩, zeroItem⟩) :=
  flatObj_Parse p0 pEnd pEOF fp rest hwf m

theorem c7_witness :
    (∀ x ∈ [(⟨"\"a\"", 1, 4, ['1'], 6⟩ : FlatProp), ⟨"\"a\"", 9, 12, ['2'], 14⟩],
      FlatProp.wfB x) ∧
    (FlatProp.toProp ⟨"\"a\"", 1, 4, ['1'], 6⟩).identifier =
      (FlatProp.toProp ⟨"\"a\"", 9, 12, ['2'], 14⟩).identifier ∧
    Parse
        (0 + 2 * ([(⟨"\"a\"", 1, 4, ['1'], 6⟩ : FlatProp),
          ⟨"\"a\"", 9, 12, ['2'], 14⟩]).length + 5)
        (newParser (flatObjToks 0
          [⟨"\"a\"", 1, 4, ['1'], 6⟩, ⟨"\"a\"", 9, 12, ['2'], 14⟩] 15 16)) =
      some ((some ⟨some .object,
          some ⟨.obj ⟨[(⟨"\"a\"", 1, 4, ['1'], 6⟩ : FlatProp),
            ⟨"\"a\"", 9, 12, ['2'], 14⟩].map FlatProp.toProp, 0, 16⟩⟩⟩, none),
        ⟨[], ⟨.rightBrace, 15, "\x7d"⟩, ⟨.eof, 16, ""⟩, zeroItem⟩) :=
  ⟨by decide, by decide,
    c7_children_in_textual_order 0 15 16 0 ⟨"\"a\"", 1, 4, ['1'], 6⟩
      [⟨"\"a\"", 9, 12, ['2'], 14⟩] (by decide)⟩

end GJ
